import Mathlib

/-!
# Verification of the incremental sync engine of `jvit-redmine-context-cli`

This file gives a shallow embedding, in Lean 4, of the sync engine of the
`jvit-redmine-context-cli` repository (TypeScript), and proves/refutes the
frozen claims about it.

Embedding conventions:

* TypeScript strings are Lean `String`s; all string primitives used by the
  source (`indexOf`, `substring`, `trim`, `parseInt`, `Number`, template
  literals) are modelled explicitly with JavaScript semantics over the
  character list of the string.
* `number | null` becomes `Option Int`; JavaScript truthiness is modelled
  explicitly where the source relies on it (`if (existingIssueId && ...)`,
  `!lastJournalId`, `existingFile.comments || undefined`, ...).
* Frontmatter (a parsed YAML mapping in the source) becomes an association
  list `List (String × FmValue)`.
* Effects are explicit: `syncIssue`'s single `writeMarkdownFile` call is
  returned as an `Option MarkdownData` ("the write that was performed, if
  any"); exceptions are `Except String`.
* The external `gray-matter` library (frontmatter codec) is modelled
  concretely; the model of its `matter()` parser is pinned by the
  repository's own unit tests (`test/file.util.test.ts`), which fix how the
  delimiters and the newline after the closing delimiter are consumed.
  Dates (`new Date`) are modelled for ISO-8601 UTC strings
  (`YYYY-MM-DDTHH:MM:SSZ`), which is the format the engine reads and writes;
  an unparseable string behaves like an invalid date (`NaN` comparisons are
  false, `toISOString` throws).
-/

namespace Redmine

/-! ## JavaScript string primitives -/

/-- Whitespace characters removed by JavaScript `String.prototype.trim`
(ASCII subset; the engine only produces ASCII whitespace). -/
def isWsChar (c : Char) : Bool :=
  c = ' ' || c = '\t' || c = '\n' || c = '\r' || c = '\x0b' || c = '\x0c'

/-- `trim` on a character list: drop whitespace at both ends. -/
def trimList (l : List Char) : List Char :=
  ((l.dropWhile isWsChar).reverse.dropWhile isWsChar).reverse

/-- JavaScript `s.trim()`. -/
def jsTrim (s : String) : String := ⟨trimList s.data⟩

/-- Scan `hay` left to right for the first occurrence of `pat`, reporting
its index offset by `i`. -/
def firstIdxAux (pat : List Char) : List Char → Nat → Option Nat
  | [], i => if pat = [] then some i else none
  | a :: t, i =>
      if pat.isPrefixOf (a :: t) then some i else firstIdxAux pat t (i + 1)

/-- Index of the first occurrence of `pat` in `hay`
(JavaScript `hay.indexOf(pat)`, with `-1` modelled as `none`). -/
def firstIdx (pat hay : List Char) : Option Nat := firstIdxAux pat hay 0

/-- Does `pat` occur somewhere in `hay`? -/
def hasSubB (hay pat : List Char) : Bool := (firstIdx pat hay).isSome

/-- JavaScript `hay.indexOf(pat)` on strings, `none` for `-1`. -/
def jsIndexOf (hay pat : String) : Option Nat := firstIdx pat.data hay.data

/-- JavaScript `s.substring(a, b)` for `a ≤ b` (the source only calls it
with the bounds in order); out-of-range indices clamp. -/
def jsSubstring (s : String) (a b : Nat) : String := ⟨(s.data.drop a).take (b - a)⟩

/-- JavaScript `s.substring(a)`. -/
def jsSubstringFrom (s : String) (a : Nat) : String := ⟨s.data.drop a⟩

/-- Decimal digit test (`'0' ≤ c ≤ '9'`, as code points). -/
def isDigitChar (c : Char) : Bool := 48 ≤ c.toNat && c.toNat ≤ 57

/-- Value of a digit list, most significant first. -/
def digitsVal (l : List Char) : Nat :=
  l.foldl (fun acc c => acc * 10 + (c.toNat - '0'.toNat)) 0

/-- Big-endian decimal digits of a natural number (standard numeral). -/
def natDigits (n : Nat) : List Char :=
  ((Nat.digits 10 n).reverse.map Nat.digitChar)

/-- Decimal numeral of a natural number; `"0"` for zero. -/
def natRepr (n : Nat) : String :=
  if n = 0 then "0" else ⟨natDigits n⟩

/-- Decimal numeral of an integer. -/
def intRepr (n : Int) : String :=
  if n < 0 then "-" ++ natRepr n.natAbs else natRepr n.natAbs

/-- JavaScript `parseInt(s, 10)`: skip leading whitespace, optional sign,
then the longest leading run of digits; `NaN` (here `none`) when that run
is empty.  Trailing garbage is ignored (`parseInt("12abc") = 12`). -/
def parseIntJs (s : String) : Option Int :=
  let l := s.data.dropWhile isWsChar
  let (sign, l) : Int × List Char :=
    match l with
    | '-' :: rest => (-1, rest)
    | '+' :: rest => (1, rest)
    | rest => (1, rest)
  let ds := l.takeWhile isDigitChar
  if ds.isEmpty then none else some (sign * (digitsVal ds : Int))

/-- JavaScript `Number(s)` restricted to the integer strings the engine can
encounter: whitespace-trimmed empty string is `0`, an optional sign followed
by digits only is that integer, anything else is `NaN` (`none`).
(Fractional/exponent forms never arise in the engine's data.) -/
def jsToNumber (s : String) : Option Int :=
  let l := trimList s.data
  match l with
  | [] => some 0
  | '-' :: rest => if rest ≠ [] && rest.all isDigitChar then some (-(digitsVal rest : Int)) else none
  | '+' :: rest => if rest ≠ [] && rest.all isDigitChar then some ((digitsVal rest : Int)) else none
  | rest => if rest.all isDigitChar then some ((digitsVal rest : Int)) else none

/-- Replace the first occurrence of `pat` in `s` by `rep`
(JavaScript `s.replace(pat, rep)` with a string pattern). -/
def replaceFirst (s pat rep : String) : String :=
  match jsIndexOf s pat with
  | none => s
  | some i => ⟨s.data.take i ++ rep.data ++ s.data.drop (i + pat.data.length)⟩

/-! ## Dates

`new Date(s)` is modelled for strict ISO-8601 UTC strings
`YYYY-MM-DDTHH:MM:SSZ`.  Comparison of two `Date`s compares their time
values; when either side is invalid the comparison is `NaN`-false. -/

/-- Parsed calendar components `(year, month, day, hour, minute, second)`. -/
structure IsoParts where
  year : Nat
  month : Nat
  day : Nat
  hour : Nat
  minute : Nat
  second : Nat
deriving Repr, DecidableEq

/-- Parse exactly `n` digits. -/
def takeDigits (n : Nat) (l : List Char) : Option (Nat × List Char) :=
  let ds := l.take n
  if ds.length = n && ds.all isDigitChar then some (digitsVal ds, l.drop n) else none

/-- Expect a literal character. -/
def expectChar (c : Char) (l : List Char) : Option (List Char) :=
  match l with
  | x :: rest => if x = c then some rest else none
  | [] => none

/-- Parse `YYYY-MM-DDTHH:MM:SSZ` (the format Redmine timestamps use and the
only date format the engine ever feeds to `new Date`). -/
def parseIsoParts (s : String) : Option IsoParts := do
  let (y, l) ← takeDigits 4 s.data
  let l ← expectChar '-' l
  let (mo, l) ← takeDigits 2 l
  let l ← expectChar '-' l
  let (d, l) ← takeDigits 2 l
  let l ← expectChar 'T' l
  let (h, l) ← takeDigits 2 l
  let l ← expectChar ':' l
  let (mi, l) ← takeDigits 2 l
  let l ← expectChar ':' l
  let (sec, l) ← takeDigits 2 l
  let l ← expectChar 'Z' l
  if l = [] && 1 ≤ mo && mo ≤ 12 && 1 ≤ d && d ≤ 31 && h ≤ 23 && mi ≤ 59 && sec ≤ 59 then
    pure ⟨y, mo, d, h, mi, sec⟩
  else none

/-- Order-embedding of the components into `Nat` (monotone in each field,
so `<`/`>` on these values agrees with `Date` comparison for valid
ISO strings). -/
def isoValue (p : IsoParts) : Nat :=
  ((((p.year * 13 + p.month) * 32 + p.day) * 24 + p.hour) * 60 + p.minute) * 60 + p.second

/-- JavaScript `new Date(r) > new Date(l)` for string operands: false
whenever either side is invalid (`NaN` comparison). -/
def jsDateGtStr (r l : String) : Bool :=
  match parseIsoParts r, parseIsoParts l with
  | some a, some b => isoValue a > isoValue b
  | _, _ => false

/-- Left-pad a numeral with zeros to width `w`. -/
def padNum (w : Nat) (n : Nat) : String :=
  let s := toString n
  ⟨List.replicate (w - s.data.length) '0' ++ s.data⟩

/-- `new Date(s).toISOString().split('T')[0]` and
`new Date(s).toTimeString().split(' ')[0].substring(0, 5)` for a valid
ISO-UTC string, in a UTC environment (the timezone the tool is run in for
its tests/CI): the date part and the `HH:MM` time part.  An invalid date
makes `toISOString` throw `Invalid time value`, modelled as `Except.error`. -/
def jsDateHeading (s : String) : Except String (String × String) :=
  match parseIsoParts s with
  | some p =>
      .ok (padNum 4 p.year ++ "-" ++ padNum 2 p.month ++ "-" ++ padNum 2 p.day,
           padNum 2 p.hour ++ ":" ++ padNum 2 p.minute)
  | none => .error "Invalid time value"

/-! ## Frontmatter values -/

/-- A YAML value as they occur in the engine's frontmatter: numbers,
strings, and arrays of objects (`relations`, `attachments`).  `typeof` on
an `arr` is `"object"`. -/
inductive FmValue where
  | num (n : Int)
  | str (s : String)
  | arr (elems : List (List (String × FmValue)))
deriving Repr

-- Boolean equality for `FmValue` (nested inductive, so written out).
mutual
def FmValue.beq : FmValue → FmValue → Bool
  | .num a, .num b => a == b
  | .str a, .str b => a == b
  | .arr a, .arr b => FmValue.beqObjList a b
  | _, _ => false
def FmValue.beqObjList : List (List (String × FmValue)) → List (List (String × FmValue)) → Bool
  | [], [] => true
  | a :: as, b :: bs => FmValue.beqObj a b && FmValue.beqObjList as bs
  | _, _ => false
def FmValue.beqObj : List (String × FmValue) → List (String × FmValue) → Bool
  | [], [] => true
  | (k, v) :: as, (k', v') :: bs => k == k' && FmValue.beq v v' && FmValue.beqObj as bs
  | _, _ => false
end

instance : BEq FmValue := ⟨FmValue.beq⟩

/-- A frontmatter mapping: ordered key/value pairs with (in engine-produced
documents) distinct keys. -/
abbrev Frontmatter := List (String × FmValue)

/-- Property lookup `frontmatter[k]` (first binding). -/
def fmLookup (fm : Frontmatter) (k : String) : Option FmValue :=
  (fm.find? (fun p => p.1 = k)).map (·.2)

/-- JavaScript truthiness of a frontmatter value: `0` and `""` are falsy,
arrays are truthy. -/
def fmTruthy : FmValue → Bool
  | .num n => n ≠ 0
  | .str s => s ≠ ""
  | .arr _ => true

/-- JavaScript `a > v` for a number `a` and a frontmatter value `v`
(`shouldUpdateComments` compares `journal.id > localFrontmatter.lastJournalId`
on the raw frontmatter value): a string is coerced with `Number`, an array
coerces to `NaN`, and `NaN` comparisons are false. -/
def jsNumGtFm (a : Int) : FmValue → Bool
  | .num m => a > m
  | .str s => match jsToNumber s with
      | some m => a > m
      | none => false
  | .arr _ => false

/-- JavaScript `new Date(r) > new Date(v)` for the raw frontmatter value
`v` (`shouldUpdateIssue` reads `localFrontmatter.updated_on` untyped).
The engine writes strings here; a numeric value is compared on the same
scale (a modelling choice documented here — the engine never writes one),
and an array gives an invalid date, so false. -/
def jsDateGtFm (r : String) : FmValue → Bool
  | .str s => jsDateGtStr r s
  | .num n => match parseIsoParts r with
      | some a => (isoValue a : Int) > n
      | none => false
  | .arr _ => false

/-! ## Markdown document codec (`src/file.util.ts`)

`extractCommentsSection` and `removeCommentsSection` match the two comment
anchors with hard-coded literal regexes (note: the *parser* side does not
consult the configuration; only `buildMarkdownContent` does). -/

/-- The literal start anchor matched by `extractCommentsSection` /
`removeCommentsSection`. -/
def commentsStartAnchor : String := "<!-- redmine:comments:start -->"

/-- The literal end anchor matched by `extractCommentsSection` /
`removeCommentsSection`. -/
def commentsEndAnchor : String := "<!-- redmine:comments:end -->"

/-- The `comments` section of the configuration: the two anchor strings and
the journal ordering key (`config.ts`, `CommentsConfigSchema`). -/
structure CommentsConfig where
  anchorsStart : String
  anchorsEnd : String
  trackByJournalId : Bool
deriving Repr, DecidableEq

/-- The default comments configuration (the zod schema defaults). -/
def defaultCommentsConfig : CommentsConfig :=
  ⟨commentsStartAnchor, commentsEndAnchor, true⟩

/-- `extractCommentsSection` (`file.util.ts:64`): text strictly between the
first start anchor and the first end anchor, trimmed; `null` when either
anchor is missing or `indexOf(start) + start.length >= indexOf(end)`. -/
def extractCommentsSection (content : String) : Option String :=
  match jsIndexOf content commentsStartAnchor, jsIndexOf content commentsEndAnchor with
  | some si, some ei =>
      let startIndex := si + commentsStartAnchor.data.length
      let endIndex := ei
      if startIndex ≥ endIndex then none
      else some (jsTrim (jsSubstring content startIndex endIndex))
  | _, _ => none

/-- `removeCommentsSection` (`file.util.ts:82`): the prefix before the first
start anchor, followed by the trimmed suffix after the first end anchor;
the content unchanged when either anchor is missing. -/
def removeCommentsSection (content : String) : String :=
  match jsIndexOf content commentsStartAnchor, jsIndexOf content commentsEndAnchor with
  | some si, some ei =>
      let startIndex := si
      let endIndex := ei + commentsEndAnchor.data.length
      jsSubstring content 0 startIndex ++ jsTrim (jsSubstringFrom content endIndex)
  | _, _ => content

/-! ## YAML codec model (external `js-yaml` via `gray-matter`)

The engine delegates the frontmatter mapping to `js-yaml`.  We model it
with a concrete codec: one `key: value` line per pair, numbers plain,
strings always double-quoted with `\"`, `\\`, `\n` escapes, arrays of
objects in flow style.  This differs from `js-yaml`'s byte output (which
quotes only when needed) but is faithful in the properties the engine
relies on: `load` is a left inverse of `dump`, values keep their types,
and dumped values never span lines.  Keys with `undefined` values
(`relation.delay`, `attachment.content_url`) are skipped by `js-yaml`'s
dump; we model that at construction time in `mapIssueToFrontmatter`. -/

/-- Escape one character for a double-quoted scalar. -/
def escChar (c : Char) : List Char :=
  if c = '"' then ['\\', '"']
  else if c = '\\' then ['\\', '\\']
  else if c = '\n' then ['\\', 'n']
  else [c]

/-- Escape a character list for a double-quoted scalar. -/
def escList (l : List Char) : List Char := l.flatMap escChar

/-- Dump a string as a double-quoted YAML scalar. -/
def dumpStr (s : String) : String := ⟨'"' :: escList s.data ++ ['"']⟩

mutual
/-- Dump one frontmatter value (single line). -/
def dumpValue : FmValue → String
  | .num n => intRepr n
  | .str s => dumpStr s
  | .arr objs => "[" ++ dumpObjList objs ++ "]"
/-- Dump a list of flow-style objects, comma separated. -/
def dumpObjList : List (List (String × FmValue)) → String
  | [] => ""
  | [o] => "\x7b" ++ dumpPairs o ++ "\x7d"
  | o :: rest => "\x7b" ++ dumpPairs o ++ "\x7d, " ++ dumpObjList rest
/-- Dump the pairs of a flow-style object, comma separated. -/
def dumpPairs : List (String × FmValue) → String
  | [] => ""
  | [(k, v)] => k ++ ": " ++ dumpValue v
  | (k, v) :: rest => k ++ ": " ++ dumpValue v ++ ", " ++ dumpPairs rest
end

/-- Join lines with single newline separators (no trailing newline). -/
def joinLines : List String → String
  | [] => ""
  | [l] => l
  | l :: rest => l ++ "\n" ++ joinLines rest

/-- Dump a frontmatter mapping: one `key: value` line per pair, joined with
single newlines and no trailing newline (the trimmed `js-yaml` output that
`gray-matter.stringify` embeds between its delimiters). -/
def yamlDumpTrimmed (fm : Frontmatter) : String :=
  joinLines (fm.map (fun p => p.1 ++ ": " ++ dumpValue p.2))

/-- Parse the escaped interior of a double-quoted scalar up to the closing
quote; returns the unescaped characters and the remainder after the quote. -/
def parseQuoted : List Char → Option (List Char × List Char)
  | [] => none
  | c :: rest =>
      if c = '"' then some ([], rest)
      else if c = '\\' then
        match rest with
        | [] => none
        | e :: rest' =>
            (parseQuoted rest').map fun (l, r) =>
              ((if e = 'n' then '\n' else e) :: l, r)
      else (parseQuoted rest).map fun (l, r) => (c :: l, r)

/-- Parse a plain (unquoted) integer scalar from the whole remaining input. -/
def parseNumAll (l : List Char) : Option Int :=
  match l with
  | '-' :: rest => if rest ≠ [] && rest.all isDigitChar then some (-(digitsVal rest : Int)) else none
  | rest => if rest ≠ [] && rest.all isDigitChar then some ((digitsVal rest : Int)) else none

/-- Parse a leading (optionally negated) digit run as a number; used for
unquoted scalars. -/
def parseNumTok (l : List Char) : Option (FmValue × List Char) :=
  if l.head? = some '-' then
    if (l.tail.takeWhile isDigitChar) ≠ [] then
      some (.num (-(digitsVal (l.tail.takeWhile isDigitChar) : Int)),
        l.tail.drop (l.tail.takeWhile isDigitChar).length)
    else none
  else
    if (l.takeWhile isDigitChar) ≠ [] then
      some (.num ((digitsVal (l.takeWhile isDigitChar) : Int)),
        l.drop (l.takeWhile isDigitChar).length)
    else none

mutual
/-- Parse one value from a prefix of the input; returns the value and the
remaining input.  `fuel` bounds recursion depth. -/
def parseValueAux (fuel : Nat) (l : List Char) : Option (FmValue × List Char) :=
  if l.head? = some '"' then
    (parseQuoted l.tail).map fun (s, r) => (.str ⟨s⟩, r)
  else if l.head? = some '[' then
    if l.tail.head? = some ']' then some (.arr [], l.tail.tail)
    else
      match fuel with
      | 0 => none
      | fuel + 1 => (parseObjList fuel l.tail).map fun (objs, r) => (.arr objs, r)
  else parseNumTok l
/-- Parse `{..}, {..}, ...]` — a nonempty flow object list up to `]`. -/
def parseObjList (fuel : Nat) (l : List Char) :
    Option (List (List (String × FmValue)) × List Char) :=
  if l.head? = some '{' then
    match fuel with
    | 0 => none
    | fuel + 1 =>
      match parsePairs fuel l.tail with
      | none => none
      | some (o, r) =>
        if r.head? = some ']' then some ([o], r.tail)
        else if r.head? = some ',' && r.tail.head? = some ' ' then
          (parseObjList fuel r.tail.tail).map fun (objs, r') => (o :: objs, r')
        else none
  else none
/-- Parse the pairs of a flow object up to (and consuming) `}`. -/
def parsePairs (fuel : Nat) (l : List Char) :
    Option (List (String × FmValue) × List Char) :=
  match fuel with
  | 0 => none
  | fuel + 1 =>
    if l.head? = some '}' then some ([], l.tail)
    else
      if (l.drop (l.takeWhile (fun c => c ≠ ':' && c ≠ '}')).length).head? = some ':' &&
         (l.drop (l.takeWhile (fun c => c ≠ ':' && c ≠ '}')).length).tail.head? =
           some ' ' then
        match parseValueAux fuel
            (l.drop (l.takeWhile (fun c => c ≠ ':' && c ≠ '}')).length).tail.tail with
        | none => none
        | some (v, r) =>
          if r.head? = some '}' then
            some ([(⟨l.takeWhile (fun c => c ≠ ':' && c ≠ '}')⟩, v)], r.tail)
          else if r.head? = some ',' && r.tail.head? = some ' ' then
            (parsePairs fuel r.tail.tail).map fun (ps, r') =>
              ((⟨l.takeWhile (fun c => c ≠ ':' && c ≠ '}')⟩, v) :: ps, r')
          else none
      else none
end

/-- Parse a full value string (the part of a line after `key: `): the value
must consume the entire input. -/
def parseValue (s : String) : Option FmValue :=
  match parseValueAux (s.data.length + 1) s.data with
  | some (v, []) => some v
  | _ => none

/-- Split a character list into lines at `'\n'` (keeping empty lines). -/
def splitLinesList : List Char → List (List Char)
  | [] => [[]]
  | c :: rest =>
      if c = '\n' then [] :: splitLinesList rest
      else
        match splitLinesList rest with
        | line :: ls => (c :: line) :: ls
        | [] => [[c]]

/-- Parse one `key: value` line. -/
def parseKVLine (l : List Char) : Option (String × FmValue) :=
  if (l.drop (l.takeWhile (fun c => c ≠ ':')).length).head? = some ':' &&
     (l.drop (l.takeWhile (fun c => c ≠ ':')).length).tail.head? = some ' ' then
    (parseValue ⟨(l.drop (l.takeWhile (fun c => c ≠ ':')).length).tail.tail⟩).map
      fun v => (⟨l.takeWhile (fun c => c ≠ ':')⟩, v)
  else none

/-- Load a YAML mapping: parse each nonblank line as `key: value`
(our dump's image; anything else is a load error, `none`). -/
def yamlLoad (s : String) : Option Frontmatter :=
  (splitLinesList s.data).foldr
    (fun line acc =>
      match acc with
      | none => none
      | some fm =>
        if trimList line = [] then some fm
        else match parseKVLine line with
          | some kv => some (kv :: fm)
          | none => none)
    (some [])

/-! ## The `gray-matter` layer

`buildMarkdownContent` embeds `matter.stringify('', fm)` with the leading
`---\n` stripped by `.replace(/^---\n|\n---\n?$/g, '')`.  The stringify
output is `---\n` + trimmed YAML + `\n---\n` + `\n` (the final newline comes
from `newline(file.content)` on the empty content); because it therefore
ends in *two* newlines, the second regex alternative `\n---\n?$` does not
match (JavaScript `$` only matches at the very end), so only the leading
`---\n` is removed.  The net string interpolated by `buildMarkdownContent`
is the YAML followed by `\n---\n\n`. -/

/-- The result of
`matter.stringify('', fm).replace(/^---\n|\n---\n?$/g, '')`. -/
def frontmatterYamlOf (fm : Frontmatter) : String :=
  yamlDumpTrimmed fm ++ "\n---\n\n"

/-- The `MarkdownData` interface (`file.util.ts:6`): what
`writeMarkdownFile` receives. `comments?: string` is an `Option`. -/
structure MarkdownData where
  frontmatter : Frontmatter
  content : String
  comments : Option String
deriving Repr

/-- The `ParsedMarkdown` interface (`file.util.ts:12`): what
`parseMarkdownContent` returns (`comments: string | null`). -/
structure ParsedMarkdown where
  frontmatter : Frontmatter
  content : String
  comments : Option String
  rawContent : String
deriving Repr

/-- `buildMarkdownContent` (`file.util.ts:96`): frontmatter block when the
mapping has keys, then the content, then — when `data.comments` is truthy,
i.e. present and nonempty — a blank-line separator and the anchored
comments block. -/
def buildMarkdownContent (data : MarkdownData) (config : CommentsConfig) : String :=
  let c1 := if data.frontmatter.length > 0 then
              "---\n" ++ frontmatterYamlOf data.frontmatter ++ "---\n\n"
            else ""
  let c2 := c1 ++ data.content
  match data.comments with
  | some s =>
      if s ≠ "" then
        c2 ++ "\n\n" ++ config.anchorsStart ++ "\n" ++ s ++ "\n" ++ config.anchorsEnd
      else c2
  | none => c2

/-- The `matter.matter(content)` front of `parseMarkdownContent`: split the
raw string into the decoded frontmatter mapping and the body.  Modelled
from `gray-matter@4.0.3` and pinned by the repository's unit tests: an
input not opening with `---` (or opening with `----`) has empty frontmatter
and an unchanged body; otherwise the matter block runs to the first
`\n---`, and exactly one `\r` and one `\n` are stripped from the front of
the remainder.  A YAML load error is an exception (`none`). -/
def matterSplit (s : String) : Option (Frontmatter × String) :=
  if ¬ (("---" : String).data.isPrefixOf s.data) then some ([], s)
  else if (s.data.drop 3).head? = some '-' then some ([], s)
  else
    let str := s.data.drop 3
    let langRaw := str.takeWhile (fun c => c ≠ '\n')
    let str := if trimList langRaw ≠ [] then str.drop langRaw.length else str
    let loadOr : List Char → Option Frontmatter := fun raw =>
      if (splitLinesList raw).all
           (fun l => trimList l = [] || (l.dropWhile isWsChar).head? = some '#') then
        some []
      else yamlLoad ⟨raw⟩
    match firstIdx ('\n' :: ("---" : String).data) str with
    | none => (loadOr str).map fun fm => (fm, "")
    | some i =>
        let matterRaw := str.take i
        let rest := str.drop (i + 4)
        let rest := match rest with | '\r' :: r => r | r => r
        let rest := match rest with | '\n' :: r => r | r => r
        (loadOr matterRaw).map fun fm => (fm, ⟨rest⟩)

/-- `parseMarkdownContent` (`file.util.ts:41`): blank input is the empty
document; otherwise split off the frontmatter and scan the body for the
comments section.  A thrown YAML error is `none`. -/
def parseMarkdownContent (content : String) : Option ParsedMarkdown :=
  if jsTrim content = "" then some ⟨[], "", none, content⟩
  else
    (matterSplit content).map fun (fm, body) =>
      ⟨fm, removeCommentsSection body, extractCommentsSection body, content⟩

/-- `extractIssueIdFromFrontmatter` (`file.util.ts:123`): a numeric `id` as
is, a string `id` through `parseInt` (`NaN` ↦ `null`), anything else
`null`. -/
def extractIssueIdFromFrontmatter (frontmatter : Frontmatter) : Option Int :=
  match fmLookup frontmatter "id" with
  | some (.num n) => some n
  | some (.str s) => parseIntJs s
  | _ => none

/-- `extractLastJournalId` (`file.util.ts:135`): same shape for the
`lastJournalId` key. -/
def extractLastJournalId (frontmatter : Frontmatter) : Option Int :=
  match fmLookup frontmatter "lastJournalId" with
  | some (.num n) => some n
  | some (.str s) => parseIntJs s
  | _ => none

/-! ## Remote data model (`src/api.ts` interfaces) -/

/-- One field-change record of a journal entry. -/
structure JournalDetail where
  name : String
  old_value : String
  new_value : String
deriving Repr, DecidableEq

/-- `RedmineJournal`: one comment entry.  `notes` and `details` are
optional. -/
structure Journal where
  id : Int
  userName : String
  notes : Option String
  created_on : String
  details : Option (List JournalDetail)
deriving Repr, DecidableEq

/-- `RedmineRelation`. -/
structure Relation where
  id : Int
  issue_to_id : Int
  relation_type : String
  delay : Option Int
deriving Repr, DecidableEq

/-- `RedmineAttachment`. -/
structure Attachment where
  id : Int
  filename : String
  filesize : Int
  content_type : String
  authorName : String
  created_on : String
  content_url : Option String
deriving Repr, DecidableEq

/-- `RedmineIssue` (the fields the sync engine reads; `status.name` etc.
are flattened to the name strings the mappers use). -/
structure Issue where
  id : Int
  subject : String
  description : String
  statusName : String
  priorityName : String
  authorName : String
  assignedToName : Option String
  created_on : String
  updated_on : String
  projectName : String
  trackerName : String
  journals : Option (List Journal)
  relations : Option (List Relation)
  attachments : Option (List Attachment)
deriving Repr, DecidableEq

/-! ## Mappers (`src/mappers.ts`, shipped bundle `dist/cli.js`) -/

/-- The `reduce` in `mapIssueToFrontmatter`: the journal with the largest
id, the earliest such entry winning ties (`journal.id > latest.id` only
replaces on strict increase).  `none` on the empty list (the source guards
with `journals.length > 0`). -/
def lastJournal : List Journal → Option Journal
  | [] => none
  | j :: rest => some (rest.foldl (fun latest journal =>
      if journal.id > latest.id then journal else latest) j)

/-- The frontmatter object for one relation.  `delay` is omitted when
`undefined` (a key with an `undefined` value is skipped by the YAML dump). -/
def relationFm (r : Relation) : List (String × FmValue) :=
  [("type", .str r.relation_type), ("issue_id", .num r.issue_to_id)] ++
    (match r.delay with | some d => [("delay", FmValue.num d)] | none => [])

/-- The frontmatter object for one attachment; `content_url` omitted when
`undefined`. -/
def attachmentFm (a : Attachment) : List (String × FmValue) :=
  [("id", .num a.id), ("filename", .str a.filename), ("filesize", .num a.filesize),
   ("content_type", .str a.content_type), ("author", .str a.authorName),
   ("created_on", .str a.created_on)] ++
    (match a.content_url with | some u => [("content_url", FmValue.str u)] | none => [])

/-- `mapIssueToFrontmatter`: the scalar snapshot fields in source order,
then the optional `assigned_to`, `relations` (when present and nonempty),
`attachments` (idem), and `lastJournalId` — the largest journal id — when
the issue carries journals. -/
def mapIssueToFrontmatter (issue : Issue) : Frontmatter :=
  [("id", .num issue.id),
   ("subject", .str issue.subject),
   ("status", .str issue.statusName),
   ("priority", .str issue.priorityName),
   ("author", .str issue.authorName),
   ("created_on", .str issue.created_on),
   ("updated_on", .str issue.updated_on),
   ("project", .str issue.projectName),
   ("tracker", .str issue.trackerName)] ++
  (match issue.assignedToName with
   | some n => [("assigned_to", FmValue.str n)] | none => []) ++
  (match issue.relations with
   | some rs => if rs.length > 0 then [("relations", FmValue.arr (rs.map relationFm))] else []
   | none => []) ++
  (match issue.attachments with
   | some as_ => if as_.length > 0 then [("attachments", FmValue.arr (as_.map attachmentFm))] else []
   | none => []) ++
  (match issue.journals with
   | some js =>
       match lastJournal js with
       | some j => [("lastJournalId", FmValue.num j.id)]
       | none => []
   | none => [])

/-- `mapIssueToContent`: the description when truthy, else the empty
string. -/
def mapIssueToContent (issue : Issue) : String :=
  if issue.description ≠ "" then issue.description else ""

/-- `'(none)'` placeholder for a falsy detail value. -/
def orNonePlaceholder (s : String) : String := if s ≠ "" then s else "(none)"

/-- The `continue` guard in the rendering loop: an absent, empty, or
blank-after-trim note.  (`!journal.notes || journal.notes.trim() === ''`.) -/
def journalSilent (j : Journal) : Bool :=
  j.notes = none || j.notes = some "" || (j.notes.map jsTrim) = some ""

/-- The body rendered for one journal entry: nothing for an absent/blank
note (the loop `continue`s before touching the date), otherwise the
heading, the note, the optional `**Changes:**` list and the trailing
horizontal rule.  An invalid `created_on` raises (`toISOString` on an
invalid date). -/
def renderJournal (j : Journal) : Except String String :=
  if journalSilent j then .ok ""
  else do
    let (date, time) ← jsDateHeading j.created_on
    let head := "## " ++ j.userName ++ " - " ++ date ++ " " ++ time ++ "\n\n"
    let noteText := (j.notes.getD "") ++ "\n\n"
    let changes :=
      match j.details with
      | some ds =>
          if ds.length > 0 then
            "**Changes:**\n" ++
              String.join (ds.map fun d =>
                "- " ++ d.name ++ ": " ++ orNonePlaceholder d.old_value ++ " → " ++
                  orNonePlaceholder d.new_value ++ "\n") ++ "\n"
          else ""
      | none => ""
    pure (head ++ noteText ++ changes ++ "---\n\n")

/-- The sort key comparison in `mapJournalsToComments`: ascending id for
`trackBy: journalId`, ascending `created_on` time value otherwise (an
invalid date has time value `NaN`; the engine's own data always parses, and
all claims use `journalId`). -/
def journalLe (trackByJournalId : Bool) (a b : Journal) : Bool :=
  if trackByJournalId then a.id ≤ b.id
  else
    match parseIsoParts a.created_on, parseIsoParts b.created_on with
    | some x, some y => isoValue x ≤ isoValue y
    | _, _ => true

/-- Insert `x` after every element `y` with `le y x` (the stable insertion
step). -/
def insertLe (le : α → α → Bool) (x : α) : List α → List α
  | [] => [x]
  | y :: ys => if le y x then y :: insertLe le x ys else x :: y :: ys

/-- Stable sort by a boolean comparison, processing left to right (equal
elements keep their input order).  JavaScript `Array.prototype.sort` is
stable, and all stable sorts under the same total preorder produce the
same list, so this models the source's sort faithfully. -/
def stableSortLe (le : α → α → Bool) (l : List α) : List α :=
  l.foldl (fun acc x => insertLe le x acc) []

/-- `mapJournalsToComments`: empty for no journals; otherwise render a
stably sorted copy in order and trim the result. -/
def mapJournalsToComments (journals : List Journal) (config : CommentsConfig) :
    Except String String :=
  if journals.length = 0 then .ok ""
  else do
    let sorted := stableSortLe (journalLe config.trackByJournalId) journals
    let parts ← sorted.mapM renderJournal
    pure (jsTrim (String.join parts))

/-- `extractNewJournals`: all journals when the marker is absent *or falsy*
(`!lastJournalId`, so a marker of `0` also passes everything), otherwise
only entries with a strictly larger id. -/
def extractNewJournals (allJournals : List Journal) (lastJournalId : Option Int) :
    List Journal :=
  match lastJournalId with
  | none => allJournals
  | some n => if n = 0 then allJournals else allJournals.filter (fun j => j.id > n)

/-- `shouldUpdateIssue`: `true` when the local `updated_on` is missing or
falsy; otherwise `new Date(remote) > new Date(local)`. -/
def shouldUpdateIssue (remoteIssue : Issue) (localFrontmatter : Frontmatter) : Bool :=
  match fmLookup localFrontmatter "updated_on" with
  | none => true
  | some v => if ¬ fmTruthy v then true else jsDateGtFm remoteIssue.updated_on v

/-- `shouldUpdateComments`: with a missing/falsy local marker, any remote
journal counts; otherwise some remote id must exceed the raw marker
value. -/
def shouldUpdateComments (remoteJournals : List Journal) (localFrontmatter : Frontmatter) :
    Bool :=
  match fmLookup localFrontmatter "lastJournalId" with
  | none => remoteJournals.length > 0
  | some v =>
      if ¬ fmTruthy v then remoteJournals.length > 0
      else remoteJournals.any (fun j => jsNumGtFm j.id v)

/-! ## Filename generation (`src/slug.util.ts`; `slugify` is external) -/

/-- `filename.slug` configuration. -/
structure SlugConfig where
  maxLength : Nat
  dedupe : Bool
  lowercase : Bool
deriving Repr, DecidableEq

/-- `filename` configuration. -/
structure FilenameConfig where
  pattern : String
  slug : SlugConfig
deriving Repr, DecidableEq

/-- The default filename configuration (`config.ts` schema defaults). -/
def defaultFilenameConfig : FilenameConfig := ⟨"{issueId}-{slug}.md", ⟨80, true, true⟩⟩

/-- Model of the external `slugify(title, { lower, strict: true, remove })`:
keep word characters and hyphens, turn spaces into hyphens, optionally
lowercase.  (The exact transliteration of the library does not matter to
any claim; only determinism does.) -/
def slugifyModel (lower : Bool) (title : String) : String :=
  ⟨(title.data.map (fun c => if c = ' ' then '-' else c)).filter
      (fun c => c.isAlphanum || c = '-' || c = '_') |>.map
      (fun c => if lower then c.toLower else c)⟩

/-- `generateSlug` with the default empty dedupe set: slugify then truncate
(the dedupe loop never fires on an empty set). -/
def generateSlug (title : String) (config : SlugConfig) : String :=
  ⟨(slugifyModel config.lowercase title).data.take config.maxLength⟩

/-- `generateFilename`: instantiate the pattern (JavaScript
`String.replace` with a string pattern replaces the first occurrence). -/
def generateFilename (issueId : Int) (title : String) (config : FilenameConfig) : String :=
  replaceFirst (replaceFirst config.pattern "{issueId}" (toString issueId))
    "{slug}" (generateSlug title config.slug)

/-! ## Issue sync decision engine (`src/sync-issue.ts`) -/

/-- The `action` field of a sync result. -/
inductive SyncAction where
  | created
  | updated
  | skipped
deriving Repr, DecidableEq

/-- The `changes` record (keys are set to `true` or left absent; absent is
modelled as `false`). -/
structure SyncChanges where
  content : Bool
  comments : Bool
  frontmatter : Bool
deriving Repr, DecidableEq

/-- `SyncIssueResult` (`sync-issue.ts:25`). -/
structure SyncIssueResult where
  success : Bool
  issueId : Int
  filename : String
  action : SyncAction
  message : String
  changes : Option SyncChanges
deriving Repr

/-- The result built in `syncIssue`'s top-level `catch`. -/
def failedResult (issueId : Int) (errMsg : String) : SyncIssueResult :=
  ⟨false, issueId, "", .skipped,
   "Failed to sync issue " ++ toString issueId ++ ": " ++ errMsg, none⟩

/-- JavaScript truthiness of `existingIssueId : number | null`
(`if (existingIssueId && ...)`): `null` and `0` are falsy. -/
def idTruthy : Option Int → Bool
  | none => false
  | some n => n ≠ 0

/-- `existingFile.comments || undefined`: `null` and `""` become
`undefined`. -/
def commentsOrUndefined : Option String → Option String
  | none => none
  | some s => if s = "" then none else some s

/-- The comments-resolution block of `syncIssue` (`sync-issue.ts:87-102`):
which comments string (if any) goes into the written document.  Rendering
can raise (invalid journal date), which propagates to the `catch`. -/
def resolveComments (issue : Issue) (existingFile : ParsedMarkdown)
    (existingLastJournalId : Option Int) (needsCommentsUpdate : Bool)
    (config : CommentsConfig) : Except String (Option String) :=
  if needsCommentsUpdate && issue.journals.isSome then
    if (extractNewJournals (issue.journals.getD []) existingLastJournalId).length > 0 then do
      let newComments ← mapJournalsToComments
        (extractNewJournals (issue.journals.getD []) existingLastJournalId) config
      match existingFile.comments with
      | some ec =>
          if ec ≠ "" then pure (some (ec ++ "\n\n---\n\n" ++ newComments))
          else pure (some newComments)
      | none => pure (some newComments)
    else pure (commentsOrUndefined existingFile.comments)
  else pure (commentsOrUndefined existingFile.comments)

/-- The engine's global configuration slice used by `syncIssue`. -/
structure SyncConfig where
  comments : CommentsConfig
  filename : FilenameConfig
deriving Repr

/-- The default engine configuration. -/
def defaultSyncConfig : SyncConfig := ⟨defaultCommentsConfig, defaultFilenameConfig⟩

/-- The body of `syncIssue` after the issue has been fetched and the
existing file read (`sync-issue.ts:51-143`), as a pure function.  The
second component is the single `writeMarkdownFile` effect: `some data`
when the file is written with `data`, `none` when nothing is written.
`issueIdArg` is the `issueId` parameter (used in messages); `issue` is the
fetched issue.  An internal exception (journal-date rendering) is returned
as `Except.error` and caught by `syncIssueRun`.  The source's local
constants (`filename`, `existingIssueId`, `needsUpdate`, `action`, ...)
are inlined — each stands for the same pure expression. -/
def syncIssueCore (issueIdArg : Int) (issue : Issue) (existingFile : ParsedMarkdown)
    (dryRun : Bool) (config : SyncConfig) :
    Except String (SyncIssueResult × Option MarkdownData) :=
  if idTruthy (extractIssueIdFromFrontmatter existingFile.frontmatter) &&
      extractIssueIdFromFrontmatter existingFile.frontmatter ≠ some issue.id then
    .ok (⟨false, issue.id, generateFilename issue.id issue.subject config.filename,
      .skipped,
      "File " ++ generateFilename issue.id issue.subject config.filename ++
        " contains issue " ++
        toString ((extractIssueIdFromFrontmatter existingFile.frontmatter).getD 0) ++
        ", not " ++ toString issue.id, none⟩, none)
  else if !shouldUpdateIssue issue existingFile.frontmatter &&
      !shouldUpdateComments (issue.journals.getD []) existingFile.frontmatter then
    .ok (⟨true, issue.id, generateFilename issue.id issue.subject config.filename,
      .skipped, "Issue " ++ toString issueIdArg ++ " is already up to date", none⟩,
      none)
  else do
    let comments ← resolveComments issue existingFile
      (extractLastJournalId existingFile.frontmatter)
      (shouldUpdateComments (issue.journals.getD []) existingFile.frontmatter)
      config.comments
    if dryRun then
      pure (⟨true, issue.id, generateFilename issue.id issue.subject config.filename,
        (if idTruthy (extractIssueIdFromFrontmatter existingFile.frontmatter)
         then SyncAction.updated else .created),
        "Would " ++
          (if idTruthy (extractIssueIdFromFrontmatter existingFile.frontmatter)
           then "updated" else "created") ++ " issue " ++ toString issueIdArg ++
          " (dry run)",
        some ⟨shouldUpdateIssue issue existingFile.frontmatter,
              shouldUpdateComments (issue.journals.getD []) existingFile.frontmatter,
              shouldUpdateIssue issue existingFile.frontmatter⟩⟩, none)
    else
      pure (⟨true, issue.id, generateFilename issue.id issue.subject config.filename,
        (if idTruthy (extractIssueIdFromFrontmatter existingFile.frontmatter)
         then SyncAction.updated else .created),
        "Successfully " ++
          (if idTruthy (extractIssueIdFromFrontmatter existingFile.frontmatter)
           then "updated" else "created") ++ " issue " ++ toString issueIdArg,
        some ⟨shouldUpdateIssue issue existingFile.frontmatter,
              shouldUpdateComments (issue.journals.getD []) existingFile.frontmatter,
              shouldUpdateIssue issue existingFile.frontmatter⟩⟩,
        some ⟨mapIssueToFrontmatter issue, mapIssueToContent issue, comments⟩)

/-- `syncIssue` with its effectful collaborators made explicit: the fetch
outcome, the `readMarkdownFile` outcome (`ENOENT` is already turned into
the empty document inside `readMarkdownFile`; any other read error is
re-thrown), and the write outcome for the data the engine decides to
write.  Every raised error lands in the top-level `catch` and becomes a
`failedResult` — `syncIssue` never lets an exception escape. -/
def syncIssueRun (issueId : Int) (fetch : Except String Issue)
    (readFile : Except String ParsedMarkdown) (writeOutcome : Except String Unit)
    (dryRun : Bool) (config : SyncConfig) : SyncIssueResult × Option MarkdownData :=
  match fetch with
  | .error e => (failedResult issueId e, none)
  | .ok issue =>
    match readFile with
    | .error e => (failedResult issueId e, none)
    | .ok existingFile =>
      match syncIssueCore issueId issue existingFile dryRun config with
      | .error e => (failedResult issueId e, none)
      | .ok (result, write) =>
        match write with
        | none => (result, none)
        | some data =>
          match writeOutcome with
          | .ok _ => (result, some data)
          | .error e => (failedResult issueId e, none)

/-- `extractIssueIdFromUrl` (`sync-issue.ts:155`): the digits after
`/issues/` when followed by `/` or the end of the string. -/
def extractIssueIdFromUrl (url : String) : Option Int :=
  match jsIndexOf url "/issues/" with
  | none => none
  | some i =>
      let rest := url.data.drop (i + ("/issues/" : String).data.length)
      let ds := rest.takeWhile isDigitChar
      let after := rest.drop ds.length
      if ds ≠ [] && (after = [] || after.head? = some '/') then
        some (digitsVal ds : Int)
      else none

/-! ## Project sync orchestrator (`src/sync-project.ts`) -/

/-- One aggregated error entry. -/
structure SyncError where
  issueId : Int
  error : String
deriving Repr, DecidableEq

/-- `SyncProjectResult` (`sync-project.ts:15`). -/
structure SyncProjectResult where
  success : Bool
  totalIssues : Nat
  processed : Nat
  created : Nat
  updated : Nat
  skipped : Nat
  failed : Nat
  errors : List SyncError
deriving Repr

/-- Count of results with the given action among the successful ones. -/
def countAction (results : List SyncIssueResult) (a : SyncAction) : Nat :=
  (results.filter (fun r => r.success && r.action = a)).length

/-- `syncProject` with its collaborators explicit: the outcome of fetching
the issue list, and the per-issue engine as a function (the source awaits
`syncIssue` for each fetched issue and aggregates; completion order only
affects the order of `errors`, not any count, and is modelled as the list
order).  A list-fetch failure yields the synthetic single error entry with
issue id `0` and no processed issues. -/
def syncProject (fetchList : Except String (List Issue))
    (runIssue : Issue → SyncIssueResult) : SyncProjectResult :=
  match fetchList with
  | .error e =>
      ⟨false, 0, 0, 0, 0, 0, 0, [⟨0, "Failed to fetch issues: " ++ e⟩]⟩
  | .ok issues =>
      let results := issues.map runIssue
      let failedResults := results.filter (fun r => ¬ r.success)
      ⟨failedResults.length = 0, issues.length, results.length,
       countAction results .created, countAction results .updated,
       countAction results .skipped, failedResults.length,
       failedResults.map (fun r => ⟨r.issueId, r.message⟩)⟩

/-! ## Well-formedness predicates

The round-trip statements restrict frontmatter to the shape the engine
actually emits: identifier-like keys and scalar-or-flat-array values
(`mapIssueToFrontmatter` produces nothing deeper). -/

/-- A frontmatter key as the engine writes them: nonempty, no `:`/`}`/
newline/quote, and not starting with a character that would change how the
YAML line is classified (`-`, `#`, `[`, whitespace). -/
def keyWfB (k : String) : Bool :=
  k.data ≠ [] &&
  !(k.data.contains ':') && !(k.data.contains '\n') &&
  !(k.data.contains '}') && !(k.data.contains '"') &&
  k.data.head? ≠ some '-' && k.data.head? ≠ some '#' &&
  k.data.head? ≠ some '[' && !(isWsChar (k.data.headD 'x'))

/-- Scalar (non-array) frontmatter value. -/
def scalarValue : FmValue → Bool
  | .num _ => true
  | .str _ => true
  | .arr _ => false

/-- A frontmatter value as the engine emits it: a scalar, or an array of
objects whose own values are scalars. -/
def valueWf : FmValue → Bool
  | .arr objs => objs.all (fun o => o.all (fun p => keyWfB p.1 && scalarValue p.2))
  | _ => true

/-- Engine-shaped frontmatter mapping. -/
def fmWf (fm : Frontmatter) : Bool :=
  fm.all (fun p => keyWfB p.1 && valueWf p.2)

/-- A pattern with no nontrivial self-overlap: no proper nonempty shift of
it is a prefix of it (true of the comment anchors and of `\n---`). -/
def selfOverlapFreeB (pat : List Char) : Bool :=
  (List.range pat.length).all fun o => o = 0 || !((pat.drop o).isPrefixOf pat)

/-- The optional comments block appended by `buildMarkdownContent`: the
blank-line separator, the start anchor, the comments text between single
newlines, and the end anchor — empty for an absent or empty comments
value. -/
def commentsBlock (config : CommentsConfig) : Option String → String
  | some s =>
      if s ≠ "" then
        "\n\n" ++ config.anchorsStart ++ "\n" ++ s ++ "\n" ++ config.anchorsEnd
      else ""
  | none => ""

/-- Fuel sufficient for `parseValueAux` to read back a dumped value: one
unit to enter the object list, one per object, one per pair. -/
def valueFuel : FmValue → Nat
  | .arr objs => (objs.map List.length).sum + objs.length + 2
  | _ => 0

/-- The journals whose loop iteration in `mapJournalsToComments` emits
text (the loop `continue`s — renders nothing — exactly on an absent or
blank note). -/
def journalVisible (j : Journal) : Bool := !(journalSilent j)

/-- The ids of the entries whose text is rendered into a comments block. -/
def visibleJournalIds (js : List Journal) : List Int :=
  (js.filter journalVisible).map (·.id)

/-! ## Concrete inputs used by witnesses and counterexamples -/

/-- A plain issue, no journals/relations/attachments. -/
def exIssue : Issue :=
  { id := 42, subject := "Fix bug", description := "Desc here",
    statusName := "New", priorityName := "Normal", authorName := "Alice",
    assignedToName := none, created_on := "2023-01-01T10:00:00Z",
    updated_on := "2023-01-02T10:00:00Z", projectName := "P", trackerName := "Bug",
    journals := none, relations := none, attachments := none }

/-- The same issue under id 7 (for the identity-conflict scenarios). -/
def exIssue7 : Issue := { exIssue with id := 7 }

/-- A journal entry with a note. -/
def exJournal10 : Journal :=
  ⟨10, "Bob", some "hi there", "2023-01-01T11:00:00Z", none⟩

/-- A *silent* journal entry: empty note, one field-change record. -/
def exJournal11 : Journal :=
  ⟨11, "Carol", some "", "2023-01-03T11:00:00Z", some [⟨"status", "New", "Closed"⟩]⟩

/-- `exIssue` carrying both journals, with an advanced `updated_on`. -/
def exIssueJ : Issue :=
  { exIssue with
    journals := some [exJournal10, exJournal11],
    updated_on := "2023-01-03T12:00:00Z" }

/-- The empty document (`readMarkdownFile` on a missing file). -/
def emptyParsedDoc : ParsedMarkdown := ⟨[], "", none, ""⟩

/-- The document the engine writes on the first sync of `exIssue` (no
existing file, no journals): the mapped frontmatter and content, no
comments. -/
def exWrite : MarkdownData :=
  ⟨mapIssueToFrontmatter exIssue, mapIssueToContent exIssue, none⟩

/-- A local file recording issue id 5. -/
def exFile5 : ParsedMarkdown :=
  ⟨[("id", .num 5), ("subject", .str "Other issue")], "body", none, "raw"⟩

/-- A local file for issue 42, synced up to `lastJournalId: 10`, with an
existing comments block. -/
def exFileSynced : ParsedMarkdown :=
  ⟨[("id", .num 42), ("updated_on", .str "2023-01-02T10:00:00Z"),
    ("lastJournalId", .num 10)],
   "Desc here", some "## Bob - 2023-01-01 11:00\n\nhi there\n\n---", "raw"⟩

/-- A local file whose `id` value is the number `0`. -/
def exFileIdZero : ParsedMarkdown :=
  ⟨[("id", .num 0)], "body", none, "raw"⟩

/-- A body in which the end anchor precedes the start anchor. -/
def exReversedBody : String :=
  "A <!-- redmine:comments:end --> B <!-- redmine:comments:start --> C"

/-! ## Claim C2: identity conflict -/

/-- **C2.** For every call to `syncIssue` where the existing local file's
frontmatter records an issue id `n` (a genuine id: nonzero — `0` is not a
valid issue id and is treated as "no recorded id" by the engine's
truthiness check, see C9) that differs from the fetched issue's id, the
result is a failure (`success = false`, action `skipped`) whose message
names both ids, and no write occurs, so the file's bytes are unchanged. -/
theorem C2_identity_conflict (issueIdArg : Int) (issue : Issue)
    (existingFile : ParsedMarkdown) (dryRun : Bool) (config : SyncConfig) (n : Int)
    (hrec : extractIssueIdFromFrontmatter existingFile.frontmatter = some n)
    (hnz : n ≠ 0) (hne : n ≠ issue.id) :
    syncIssueCore issueIdArg issue existingFile dryRun config =
      .ok (⟨false, issue.id,
        generateFilename issue.id issue.subject config.filename, .skipped,
        "File " ++ generateFilename issue.id issue.subject config.filename ++
          " contains issue " ++ toString n ++ ", not " ++ toString issue.id,
        none⟩, none) := by
  unfold syncIssueCore
  rw [hrec]
  simp [idTruthy, hnz, hne]

/-- Witness for C2: issue 7 fetched onto a file recording id 5 is refused
without a write. -/
theorem C2_identity_conflict_witness :
    extractIssueIdFromFrontmatter exFile5.frontmatter = some 5 ∧
    (5 : Int) ≠ 0 ∧ (5 : Int) ≠ exIssue7.id ∧
    syncIssueCore 7 exIssue7 exFile5 false defaultSyncConfig =
      .ok (⟨false, exIssue7.id,
        generateFilename exIssue7.id exIssue7.subject defaultSyncConfig.filename,
        .skipped,
        "File " ++ generateFilename exIssue7.id exIssue7.subject defaultSyncConfig.filename ++
          " contains issue " ++ toString (5 : Int) ++ ", not " ++ toString exIssue7.id,
        none⟩, none) :=
  ⟨rfl, by decide, by decide,
   C2_identity_conflict 7 exIssue7 exFile5 false defaultSyncConfig 5 rfl
     (by decide) (by decide)⟩

/-! ## Claim C8: dry run -/

/-- **C8.** Every call with `dryRun = true` that passes the identity guard
and detects a change (and whose comment rendering does not raise) performs
no write — the returned effect is `none`, storage untouched — and reports
the hypothetical action: `created` when no (truthy) recorded id is
present, `updated` otherwise, with a `Would <action>` message. -/
theorem C8_dry_run (issueIdArg : Int) (issue : Issue) (existingFile : ParsedMarkdown)
    (config : SyncConfig) (cmts : Option String)
    (hok : ¬ (idTruthy (extractIssueIdFromFrontmatter existingFile.frontmatter) = true ∧
              extractIssueIdFromFrontmatter existingFile.frontmatter ≠ some issue.id))
    (hchange : shouldUpdateIssue issue existingFile.frontmatter = true ∨
               shouldUpdateComments (issue.journals.getD []) existingFile.frontmatter = true)
    (hres : resolveComments issue existingFile
        (extractLastJournalId existingFile.frontmatter)
        (shouldUpdateComments (issue.journals.getD []) existingFile.frontmatter)
        config.comments = .ok cmts) :
    ∃ r : SyncIssueResult,
      syncIssueCore issueIdArg issue existingFile true config = .ok (r, none) ∧
      r.success = true ∧
      r.action = (if idTruthy (extractIssueIdFromFrontmatter existingFile.frontmatter)
                  then SyncAction.updated else .created) ∧
      r.message = "Would " ++
        (if idTruthy (extractIssueIdFromFrontmatter existingFile.frontmatter)
         then "updated" else "created") ++ " issue " ++ toString issueIdArg ++
        " (dry run)" := by
  unfold syncIssueCore
  by_cases hguard : (idTruthy (extractIssueIdFromFrontmatter existingFile.frontmatter) &&
      decide (extractIssueIdFromFrontmatter existingFile.frontmatter ≠ some issue.id)) = true
  · exact absurd ⟨(Bool.and_eq_true .. ▸ hguard).1,
      of_decide_eq_true (Bool.and_eq_true .. ▸ hguard).2⟩ hok
  · rw [if_neg hguard]
    have hch : ¬ ((!shouldUpdateIssue issue existingFile.frontmatter &&
        !shouldUpdateComments (issue.journals.getD []) existingFile.frontmatter) = true) := by
      rcases hchange with h | h <;> simp [h]
    rw [if_neg hch]
    simp only [bind, Except.bind, hres, if_pos rfl]
    by_cases hid : idTruthy (extractIssueIdFromFrontmatter existingFile.frontmatter) = true
    · rw [if_pos hid]
      exact ⟨_, rfl, rfl, by simp [hid], by simp [hid]⟩
    · rw [if_neg hid]
      exact ⟨_, rfl, rfl, by simp [hid], by simp [hid]⟩

/-- Witness for C8: a first sync (no local file) in dry-run mode reports a
hypothetical `created` and writes nothing. -/
theorem C8_dry_run_witness :
    (∃ r : SyncIssueResult,
      syncIssueCore 42 exIssue emptyParsedDoc true defaultSyncConfig = .ok (r, none) ∧
      r.success = true ∧
      r.action = (if idTruthy (extractIssueIdFromFrontmatter emptyParsedDoc.frontmatter)
                  then SyncAction.updated else .created) ∧
      r.message = "Would " ++
        (if idTruthy (extractIssueIdFromFrontmatter emptyParsedDoc.frontmatter)
         then "updated" else "created") ++ " issue " ++ toString (42 : Int) ++
        " (dry run)") :=
  C8_dry_run 42 exIssue emptyParsedDoc defaultSyncConfig none
    (by decide) (Or.inl (by decide)) rfl

/-! ## Claim C9: falsy recorded id never conflicts -/

/-- **C9.** When the existing frontmatter has no `id` key, or its value is
neither a number nor a string parsing to a number (so extraction yields
`null`), or it is the number `0`, the identity check never reports a
conflict: a change-triggering (non-dry-run) sync overwrites the file and
reports `created`, not `updated`. -/
theorem C9_falsy_id_creates (issueIdArg : Int) (issue : Issue)
    (existingFile : ParsedMarkdown) (config : SyncConfig) (cmts : Option String)
    (hid : extractIssueIdFromFrontmatter existingFile.frontmatter = none ∨
           extractIssueIdFromFrontmatter existingFile.frontmatter = some 0)
    (hchange : shouldUpdateIssue issue existingFile.frontmatter = true ∨
               shouldUpdateComments (issue.journals.getD []) existingFile.frontmatter = true)
    (hres : resolveComments issue existingFile
        (extractLastJournalId existingFile.frontmatter)
        (shouldUpdateComments (issue.journals.getD []) existingFile.frontmatter)
        config.comments = .ok cmts) :
    ∃ r : SyncIssueResult,
      syncIssueCore issueIdArg issue existingFile false config =
        .ok (r, some ⟨mapIssueToFrontmatter issue, mapIssueToContent issue, cmts⟩) ∧
      r.success = true ∧ r.action = .created ∧ r.action ≠ .updated := by
  have hfalsy : idTruthy (extractIssueIdFromFrontmatter existingFile.frontmatter) = false := by
    rcases hid with h | h <;> simp [h, idTruthy]
  have hch : ¬ ((!shouldUpdateIssue issue existingFile.frontmatter &&
      !shouldUpdateComments (issue.journals.getD []) existingFile.frontmatter) = true) := by
    rcases hchange with h | h <;> simp [h]
  unfold syncIssueCore
  simp only [hfalsy, Bool.false_and, Bool.false_eq_true, if_false, if_neg hch,
    bind, Except.bind, hres]
  exact ⟨_, rfl, rfl, rfl, by simp⟩

/-- Witness for C9: a file recording `id: 0` is overwritten with action
`created`, not `updated`, even though the fetched issue has id 42. -/
theorem C9_falsy_id_creates_witness :
    (extractIssueIdFromFrontmatter exFileIdZero.frontmatter = some 0) ∧
    (∃ r : SyncIssueResult,
      syncIssueCore 42 exIssue exFileIdZero false defaultSyncConfig =
        .ok (r, some ⟨mapIssueToFrontmatter exIssue, mapIssueToContent exIssue, none⟩) ∧
      r.success = true ∧ r.action = .created ∧ r.action ≠ .updated) :=
  ⟨rfl, C9_falsy_id_creates 42 exIssue exFileIdZero defaultSyncConfig none
    (Or.inr rfl) (Or.inl (by decide)) rfl⟩

/-! ## Claim C7: error containment -/

/-- **C7.** `syncIssue` never propagates an exception: a fetch error, a
read error, an error raised while rendering/merging comments, and a write
error each produce the structured failure result (`success = false`) and
no surviving write; and `syncProject` (with the issue list successfully
fetched) returns `success = true` iff zero issues failed, while a failure
fetching the issue list itself yields exactly one error entry with issue
id 0, zero processed issues, and no exception. -/
theorem C7_error_containment :
    (∀ (issueId : Int) (e : String) (readFile : Except String ParsedMarkdown)
       (w : Except String Unit) (dryRun : Bool) (config : SyncConfig),
       syncIssueRun issueId (.error e) readFile w dryRun config =
         (failedResult issueId e, none) ∧ (failedResult issueId e).success = false) ∧
    (∀ (issueId : Int) (issue : Issue) (e : String) (w : Except String Unit)
       (dryRun : Bool) (config : SyncConfig),
       syncIssueRun issueId (.ok issue) (.error e) w dryRun config =
         (failedResult issueId e, none)) ∧
    (∀ (issueId : Int) (issue : Issue) (f : ParsedMarkdown) (e : String)
       (w : Except String Unit) (dryRun : Bool) (config : SyncConfig),
       syncIssueCore issueId issue f dryRun config = .error e →
       syncIssueRun issueId (.ok issue) (.ok f) w dryRun config =
         (failedResult issueId e, none)) ∧
    (∀ (issueId : Int) (issue : Issue) (f : ParsedMarkdown) (e : String)
       (dryRun : Bool) (config : SyncConfig) (r : SyncIssueResult) (d : MarkdownData),
       syncIssueCore issueId issue f dryRun config = .ok (r, some d) →
       syncIssueRun issueId (.ok issue) (.ok f) (.error e) dryRun config =
         (failedResult issueId e, none)) ∧
    (∀ (issues : List Issue) (runIssue : Issue → SyncIssueResult),
       (syncProject (.ok issues) runIssue).success = true ↔
       (syncProject (.ok issues) runIssue).failed = 0) ∧
    (∀ (e : String) (runIssue : Issue → SyncIssueResult),
       syncProject (.error e) runIssue =
         ⟨false, 0, 0, 0, 0, 0, 0, [⟨0, "Failed to fetch issues: " ++ e⟩]⟩ ∧
       (syncProject (.error e) runIssue).processed = 0) := by
  refine ⟨fun _ _ _ _ _ _ => ⟨rfl, rfl⟩, fun _ _ _ _ _ _ => rfl, ?_, ?_, ?_, fun _ _ => ⟨rfl, rfl⟩⟩
  · intro issueId issue f e w dryRun config h
    simp [syncIssueRun, h]
  · intro issueId issue f e dryRun config r d h
    simp [syncIssueRun, h]
  · intro issues runIssue
    simp [syncProject]

/-- Witness for C7: the hypothesis-bearing conjuncts instantiated — a
rendering error (invalid journal date) and a write error each turn into
the structured failure. -/
theorem C7_error_containment_witness :
    (syncIssueCore 42 { exIssue with
        journals := some [⟨12, "Z", some "note", "garbage-date", none⟩],
        updated_on := "2023-01-05T00:00:00Z" }
      exFileSynced false defaultSyncConfig = .error "Invalid time value") ∧
    (syncIssueRun 42 (.ok { exIssue with
        journals := some [⟨12, "Z", some "note", "garbage-date", none⟩],
        updated_on := "2023-01-05T00:00:00Z" })
      (.ok exFileSynced) (.ok ()) false defaultSyncConfig =
        (failedResult 42 "Invalid time value", none)) ∧
    (syncIssueRun 42 (.ok exIssue) (.ok emptyParsedDoc) (.error "EACCES") false
        defaultSyncConfig = (failedResult 42 "EACCES", none)) := by
  refine ⟨by rfl, ?_, ?_⟩
  · exact C7_error_containment.2.2.1 42 _ exFileSynced "Invalid time value"
      (.ok ()) false defaultSyncConfig (by rfl)
  · exact C7_error_containment.2.2.2.1 42 exIssue emptyParsedDoc "EACCES" false
      defaultSyncConfig _ ⟨mapIssueToFrontmatter exIssue, mapIssueToContent exIssue, none⟩
      (by rfl)

/-! ## Claim C6: malformed anchor handling -/

/-- **C6 counterexample.** The claim also asserts that when the start
anchor occurs at or after the end anchor the content comes back as "the
full body unmodified" — false: `removeCommentsSection` cuts and re-glues
the body with no position guard, duplicating the span between the two
anchors.  In `exReversedBody` both anchors occur (start at 34, end at 2),
the end anchor precedes the start anchor, comments are indeed absent, but
the parsed content differs from the body. -/
theorem C6_counterexample :
    jsIndexOf exReversedBody commentsStartAnchor = some 34 ∧
    jsIndexOf exReversedBody commentsEndAnchor = some 2 ∧
    extractCommentsSection exReversedBody = none ∧
    (parseMarkdownContent exReversedBody).map (fun p => p.comments) = some none ∧
    (parseMarkdownContent exReversedBody).map (fun p => p.content) ≠
      some exReversedBody := by
  refine ⟨by decide, by decide, by decide, rfl, by decide⟩

/-- **C6 amended.** If either anchor is missing, parsing yields absent
comments and the content equal to the full body unmodified; if both
anchors are present but the (first) start anchor occurs at or after the
(first) end anchor, the comments value is still absent, but the content is
then `prefix-before-start ++ trim(suffix-after-end)`, which in general is
*not* the unmodified body (see the counterexample). -/
theorem C6_amended (content : String) :
    ((jsIndexOf content commentsStartAnchor = none ∨
      jsIndexOf content commentsEndAnchor = none) →
        extractCommentsSection content = none ∧
        removeCommentsSection content = content) ∧
    (∀ si ei, jsIndexOf content commentsStartAnchor = some si →
        jsIndexOf content commentsEndAnchor = some ei → ei ≤ si →
        extractCommentsSection content = none ∧
        removeCommentsSection content =
          jsSubstring content 0 si ++
            jsTrim (jsSubstringFrom content (ei + commentsEndAnchor.data.length))) := by
  constructor
  · intro h
    unfold extractCommentsSection removeCommentsSection
    rcases h with h | h <;> rw [h]
    · exact ⟨rfl, rfl⟩
    · cases jsIndexOf content commentsStartAnchor <;> exact ⟨rfl, rfl⟩
  · intro si ei h1 h2 hle
    unfold extractCommentsSection removeCommentsSection
    rw [h1, h2]
    refine ⟨?_, rfl⟩
    show (if si + commentsStartAnchor.data.length ≥ ei then none
          else some (jsTrim (jsSubstring content (si + commentsStartAnchor.data.length) ei)))
        = none
    rw [if_pos (le_trans hle (Nat.le_add_right ..))]

/-- Witness for C6 amended: a body with no anchors is untouched, and the
reversed-anchor body yields absent comments. -/
theorem C6_amended_witness :
    (jsIndexOf "plain body" commentsStartAnchor = none ∨
     jsIndexOf "plain body" commentsEndAnchor = none) ∧
    extractCommentsSection "plain body" = none ∧
    removeCommentsSection "plain body" = "plain body" ∧
    extractCommentsSection exReversedBody = none := by
  refine ⟨Or.inl (by decide), ?_, ?_, ?_⟩
  · exact ((C6_amended "plain body").1 (Or.inl (by decide))).1
  · exact ((C6_amended "plain body").1 (Or.inl (by decide))).2
  · exact (((C6_amended exReversedBody).2 34 2 (by decide) (by decide) (by decide))).1

/-! ## Claim C10: serialization omission rules -/

/-- **C10.** Serialization omits the frontmatter block exactly when the
mapping has no keys, and omits the comments block with both anchors
exactly when the comments value is absent or the empty string (JavaScript
falsiness of `data.comments`); consequently serializing with
`comments = ""` yields the same bytes as with comments absent. -/
theorem C10_serialization_omission (data : MarkdownData) (config : CommentsConfig) :
    (buildMarkdownContent { data with comments := some "" } config =
     buildMarkdownContent { data with comments := none } config) ∧
    (data.frontmatter = [] → (data.comments = none ∨ data.comments = some "") →
       buildMarkdownContent data config = data.content) ∧
    (data.frontmatter ≠ [] → (data.comments = none ∨ data.comments = some "") →
       buildMarkdownContent data config =
         "---\n" ++ frontmatterYamlOf data.frontmatter ++ "---\n\n" ++ data.content) ∧
    (∀ s, s ≠ "" → data.comments = some s →
       buildMarkdownContent data config =
         (if data.frontmatter.length > 0 then
            "---\n" ++ frontmatterYamlOf data.frontmatter ++ "---\n\n"
          else "") ++ data.content ++
           "\n\n" ++ config.anchorsStart ++ "\n" ++ s ++ "\n" ++ config.anchorsEnd) := by
  refine ⟨?_, ?_, ?_, ?_⟩
  · simp [buildMarkdownContent]
  · intro hfm hc
    rcases hc with hc | hc <;>
      simp [buildMarkdownContent, hfm, hc]
  · intro hfm hc
    have hl : data.frontmatter.length > 0 := List.length_pos.mpr hfm
    rcases hc with hc | hc <;>
      simp [buildMarkdownContent, hc, hl]
  · intro s hs hc
    simp [buildMarkdownContent, hc, hs]

/-- Witness for C10: the omission rules at concrete documents. -/
theorem C10_serialization_omission_witness :
    buildMarkdownContent ⟨[], "# Body", some ""⟩ defaultCommentsConfig =
      buildMarkdownContent ⟨[], "# Body", none⟩ defaultCommentsConfig ∧
    buildMarkdownContent ⟨[], "# Body", some ""⟩ defaultCommentsConfig = "# Body" ∧
    buildMarkdownContent ⟨[("id", .num 1)], "B", some "c"⟩ defaultCommentsConfig =
      (if ([(("id" : String), FmValue.num 1)] : Frontmatter).length > 0 then
         "---\n" ++ frontmatterYamlOf [("id", .num 1)] ++ "---\n\n"
       else "") ++ "B" ++ "\n\n" ++ defaultCommentsConfig.anchorsStart ++ "\n" ++
        "c" ++ "\n" ++ defaultCommentsConfig.anchorsEnd :=
  ⟨(C10_serialization_omission ⟨[], "# Body", some ""⟩ defaultCommentsConfig).1,
   (C10_serialization_omission ⟨[], "# Body", some ""⟩ defaultCommentsConfig).2.1 rfl
     (Or.inr rfl),
   (C10_serialization_omission ⟨[("id", .num 1)], "B", some "c"⟩
       defaultCommentsConfig).2.2.2 "c" (by decide) rfl⟩

/-! ## Helper lemmas about the mappers -/

/-- Lookup skips a prefix whose keys all differ from `k`. -/
theorem fmLookup_append_right (A B : Frontmatter) (k : String)
    (h : ∀ x ∈ A, x.1 ≠ k) : fmLookup (A ++ B) k = fmLookup B k := by
  induction A with
  | nil => rfl
  | cons a t ih =>
      have ha : decide (a.1 = k) = false := decide_eq_false (h a (by simp))
      simp only [List.cons_append, fmLookup, List.find?_cons, ha]
      exact ih (fun x hx => h x (by simp [hx]))

/-- The `reduce` in `mapIssueToFrontmatter` returns a member of the list
whose id bounds every member's id. -/
theorem lastJournal_spec (js : List Journal) (hne : js ≠ []) :
    ∃ jm, lastJournal js = some jm ∧ jm ∈ js ∧ ∀ j ∈ js, j.id ≤ jm.id := by
  match js, hne with
  | a :: t, _ =>
    clear hne
    suffices h : ∀ (t : List Journal) (a : Journal),
        (t.foldl (fun latest journal =>
          if journal.id > latest.id then journal else latest) a) ∈ a :: t ∧
        a.id ≤ (t.foldl (fun latest journal =>
          if journal.id > latest.id then journal else latest) a).id ∧
        ∀ j ∈ t, j.id ≤ (t.foldl (fun latest journal =>
          if journal.id > latest.id then journal else latest) a).id by
      obtain ⟨h1, h2, h3⟩ := h t a
      exact ⟨_, rfl, h1, by
        intro j hj
        rcases List.mem_cons.mp hj with rfl | hj
        · exact h2
        · exact h3 j hj⟩
    intro t
    induction t with
    | nil => exact fun a => ⟨by simp, le_refl _, by simp⟩
    | cons b t ih =>
        intro a
        simp only [List.foldl_cons]
        by_cases hb : b.id > a.id
        · rw [if_pos hb]
          obtain ⟨h1, h2, h3⟩ := ih b
          refine ⟨?_, le_trans (le_of_lt hb) h2, ?_⟩
          · rcases List.mem_cons.mp h1 with h | h <;> simp [h]
          · intro j hj
            rcases List.mem_cons.mp hj with rfl | hj
            · exact h2
            · exact h3 j hj
        · rw [if_neg hb]
          obtain ⟨h1, h2, h3⟩ := ih a
          refine ⟨?_, h2, ?_⟩
          · rcases List.mem_cons.mp h1 with h | h <;> simp [h]
          · intro j hj
            rcases List.mem_cons.mp hj with rfl | hj
            · exact le_trans (le_of_not_lt hb) h2
            · exact h3 j hj

/-- In the frontmatter built for an issue carrying journals, the
`lastJournalId` key holds the id of the journal `reduce` selected. -/
theorem fmLookup_mapIssue_lastJournalId (issue : Issue) (js : List Journal)
    (jm : Journal) (hj : issue.journals = some js) (hl : lastJournal js = some jm) :
    fmLookup (mapIssueToFrontmatter issue) "lastJournalId" = some (.num jm.id) := by
  unfold mapIssueToFrontmatter
  rw [hj]
  simp only [hl]
  rw [show ∀ (L : Frontmatter), L ++ [("lastJournalId", FmValue.num jm.id)] =
      L ++ [("lastJournalId", FmValue.num jm.id)] from fun _ => rfl]
  rw [List.append_assoc, List.append_assoc, List.append_assoc]
  rw [fmLookup_append_right]
  · rw [fmLookup_append_right]
    · rw [fmLookup_append_right]
      · rw [fmLookup_append_right]
        · rfl
        · cases issue.attachments with
          | none => simp
          | some as_ => by_cases h : as_.length > 0 <;> simp [h]
      · cases issue.relations with
        | none => simp
        | some rs => by_cases h : rs.length > 0 <;> simp [h]
    · cases issue.assignedToName with
      | none => simp
      | some n => simp
  · intro x hx
    simp only [List.mem_cons, List.not_mem_nil, or_false] at hx
    rcases hx with h | h | h | h | h | h | h | h | h <;> simp [h]

/-- The frontmatter built for an issue always records its `updated_on`
(first nine keys are fixed; lookup hits the seventh). -/
theorem fmLookup_mapIssue_updated_on (issue : Issue) :
    fmLookup (mapIssueToFrontmatter issue) "updated_on" =
      some (.str issue.updated_on) := rfl

/-- The frontmatter built for an issue always records its `id` first. -/
theorem fmLookup_mapIssue_id (issue : Issue) :
    fmLookup (mapIssueToFrontmatter issue) "id" = some (.num issue.id) := rfl

/-- A silent journal entry (absent or blank note) renders nothing: the
loop body `continue`s. -/
theorem renderJournal_silent (j : Journal) (h : journalVisible j = false) :
    renderJournal j = .ok "" := by
  have hs : journalSilent j = true := by
    unfold journalVisible at h
    cases hb : journalSilent j with
    | true => rfl
    | false => rw [hb] at h; simp at h
  unfold renderJournal
  rw [if_pos hs]

/-- A single silent entry produces the empty rendered comments string. -/
theorem mapJournalsToComments_single_silent (j : Journal) (config : CommentsConfig)
    (h : journalVisible j = false) :
    mapJournalsToComments [j] config = .ok "" := by
  unfold mapJournalsToComments
  rw [if_neg (by simp)]
  show ((stableSortLe (journalLe config.trackByJournalId) [j]).mapM renderJournal).bind
      (fun parts => pure (jsTrim (String.join parts))) = .ok ""
  rw [show stableSortLe (journalLe config.trackByJournalId) [j] = [j] from rfl]
  rw [show List.mapM renderJournal [j] =
      (renderJournal j).bind (fun x => pure [x]) from rfl]
  rw [renderJournal_silent j h]
  rfl

/-! ## Claim C5: silent new comment -/

/-- **C5 counterexample.**  The claim asserts the merge is a no-op ("the
comments block text is unchanged") when the only new entry renders to
empty text.  False: the merge branch fires on `newJournals.length > 0`
regardless of the rendered text, so the engine appends the
`\n\n---\n\n` separator with nothing after it.  Here: local marker 10
with comments block `"## Bob - …"`, remote has exactly one new entry
(id 11, blank note, one field change), `updated_on` advanced — the
written comments value gains a dangling separator. -/
theorem C5_counterexample :
    extractLastJournalId exFileSynced.frontmatter = some 10 ∧
    (exIssueJ.journals.getD []).filter (fun j => j.id > (10 : Int)) = [exJournal11] ∧
    exJournal11.notes = some "" ∧
    (syncIssueCore 42 exIssueJ exFileSynced false defaultSyncConfig).toOption.bind
        (fun p => p.2.map (fun d => d.comments)) =
      some (some "## Bob - 2023-01-01 11:00\n\nhi there\n\n---\n\n---\n\n") ∧
    some exFileSynced.comments ≠
      some (some "## Bob - 2023-01-01 11:00\n\nhi there\n\n---\n\n---\n\n") := by
  refine ⟨rfl, by decide, rfl, rfl, by decide⟩

/-- **C5 amended.**  For a local file recording marker `m ≠ 0` and a
nonempty existing comments text, when the remote journal set has exactly
one entry beyond the marker and that entry is silent (blank note — even
with field-change records), its rendered text is empty but the merge is
*not* a no-op: the written comments value is the existing text plus a
trailing `\n\n---\n\n` separator (no new visible comment text), the
written `lastJournalId` is the id selected by the frontmatter mapper, and
(the `updated_on` having advanced, the file recording this issue's id) the
action is `updated`. -/
theorem C5_amended (issueIdArg : Int) (issue : Issue) (f : ParsedMarkdown)
    (js : List Journal) (jnew : Journal) (m : Int) (C : String)
    (hj : issue.journals = some js)
    (hm : fmLookup f.frontmatter "lastJournalId" = some (.num m)) (hm0 : m ≠ 0)
    (hfilter : js.filter (fun j => j.id > m) = [jnew])
    (hsilent : journalVisible jnew = false)
    (hC : f.comments = some C) (hCne : C ≠ "")
    (hid : extractIssueIdFromFrontmatter f.frontmatter = some issue.id)
    (hupd : shouldUpdateIssue issue f.frontmatter = true)
    (hlast : lastJournal js = some jnew) (config : SyncConfig) :
    ∃ r : SyncIssueResult,
      syncIssueCore issueIdArg issue f false config =
        .ok (r, some ⟨mapIssueToFrontmatter issue, mapIssueToContent issue,
          some (C ++ "\n\n---\n\n" ++ "")⟩) ∧
      fmLookup (mapIssueToFrontmatter issue) "lastJournalId" = some (.num jnew.id) ∧
      r.action = (if idTruthy (some issue.id) then SyncAction.updated else .created) := by
  have hmemnew : jnew ∈ js ∧ jnew.id > m := by
    have h1 : jnew ∈ js.filter (fun j => j.id > m) := by rw [hfilter]; simp
    have h2 := List.mem_filter.mp h1
    exact ⟨h2.1, by simpa using h2.2⟩
  have hcomm : shouldUpdateComments js f.frontmatter = true := by
    unfold shouldUpdateComments
    rw [hm]
    show (if ¬ fmTruthy (.num m) = true then (decide (js.length > 0))
          else js.any fun j => jsNumGtFm j.id (.num m)) = true
    rw [if_neg (by simp [fmTruthy, hm0])]
    refine List.any_eq_true.mpr ⟨jnew, hmemnew.1, ?_⟩
    show decide (jnew.id > m) = true
    exact decide_eq_true hmemnew.2
  have hlj : extractLastJournalId f.frontmatter = some m := by
    unfold extractLastJournalId
    rw [hm]
  have hnew : extractNewJournals js (some m) = [jnew] := by
    show (if m = 0 then js else js.filter fun j => j.id > m) = [jnew]
    rw [if_neg hm0]
    exact hfilter
  have hres : resolveComments issue f (some m) true config.comments =
      .ok (some (C ++ "\n\n---\n\n" ++ "")) := by
    unfold resolveComments
    rw [hj]
    rw [show ((some js).getD ([] : List Journal)) = js from rfl]
    rw [hnew]
    rw [if_pos (show (true && (some js).isSome) = true from rfl)]
    rw [if_pos (show ([jnew] : List Journal).length > 0 by simp)]
    rw [mapJournalsToComments_single_silent jnew config.comments hsilent]
    show Except.bind (Except.ok "") _ = _
    rw [show ∀ (k : String → Except String (Option String)),
        Except.bind (Except.ok "") k = k "" from fun _ => rfl]
    rw [hC]
    show (if C ≠ "" then pure (some (C ++ "\n\n---\n\n" ++ "")) else _) = _
    rw [if_pos hCne]
    rfl
  have hgetD : issue.journals.getD [] = js := by rw [hj]; rfl
  unfold syncIssueCore
  rw [hid, hgetD, hcomm, hupd, hlj, hres]
  rw [if_neg (show ¬ ((idTruthy (some issue.id) &&
      decide (some issue.id ≠ some issue.id)) = true) by simp)]
  rw [if_neg (show ¬ ((!true && !true) = true) by simp)]
  exact ⟨_, rfl, fmLookup_mapIssue_lastJournalId issue js jnew hj hlast, rfl⟩

/-- Witness for C5 amended: the concrete silent-update scenario. -/
theorem C5_amended_witness :
    (∃ r : SyncIssueResult,
      syncIssueCore 42 exIssueJ exFileSynced false defaultSyncConfig =
        .ok (r, some ⟨mapIssueToFrontmatter exIssueJ, mapIssueToContent exIssueJ,
          some ("## Bob - 2023-01-01 11:00\n\nhi there\n\n---" ++ "\n\n---\n\n" ++ "")⟩) ∧
      fmLookup (mapIssueToFrontmatter exIssueJ) "lastJournalId" =
        some (.num exJournal11.id) ∧
      r.action = (if idTruthy (some exIssueJ.id) then SyncAction.updated else .created)) :=
  C5_amended 42 exIssueJ exFileSynced [exJournal10, exJournal11] exJournal11 10
    "## Bob - 2023-01-01 11:00\n\nhi there\n\n---"
    rfl rfl (by decide) (by decide) (by decide) rfl (by decide) rfl
    (by decide) rfl defaultSyncConfig

/-! ## Claim C4: monotonic marker -/

/-- **C4 counterexample.**  The claim says the written `lastJournalId`
equals the maximum id among all entries *ever rendered into the comments
block*.  False: silent entries (blank note) bump the marker without ever
rendering any text.  Concretely, with a previous marker of 10 and a remote
set `[entry 10 ("hi there"), entry 11 (blank note + field change)]`, the
newly written marker is 11, entry 11 contributes nothing to the block
(the only new entry renders to the empty string), and the set of
visibly rendered ids is `[10]` — whose maximum, 10, differs from 11. -/
theorem C4_counterexample :
    extractLastJournalId exFileSynced.frontmatter = some 10 ∧
    fmLookup (mapIssueToFrontmatter exIssueJ) "lastJournalId" = some (.num 11) ∧
    visibleJournalIds (exIssueJ.journals.getD []) = [10] ∧
    mapJournalsToComments
        (extractNewJournals (exIssueJ.journals.getD []) (some 10))
        defaultCommentsConfig = .ok "" ∧
    (11 : Int) ≠ 10 := by
  refine ⟨rfl, rfl, by decide, rfl, by decide⟩

/-- **C4 amended.**  After a sync of a file whose frontmatter records
marker `p`, provided the remote journal set contains the previously seen
top entry (it contains every entry previously seen, and `p` is one of
their ids), the written `lastJournalId` is ≥ `p`, and it equals the
maximum id among *all* comment entries of the fetch — including silent
entries that render no visible text (not merely those rendered into the
comments block). -/
theorem C4_amended (issue : Issue) (js : List Journal) (f : ParsedMarkdown) (p : Int)
    (hj : issue.journals = some js) (hne : js ≠ [])
    (hprev : extractLastJournalId f.frontmatter = some p)
    (hmem : p ∈ js.map (fun j => j.id)) :
    ∃ m : Int,
      fmLookup (mapIssueToFrontmatter issue) "lastJournalId" = some (.num m) ∧
      p ≤ m ∧ (∀ j ∈ js, j.id ≤ m) ∧ m ∈ js.map (fun j => j.id) := by
  obtain ⟨jm, hl, hmem', hmax⟩ := lastJournal_spec js hne
  refine ⟨jm.id, fmLookup_mapIssue_lastJournalId issue js jm hj hl, ?_, hmax, ?_⟩
  · obtain ⟨j, hjmem, hjid⟩ := List.mem_map.mp hmem
    exact hjid ▸ hmax j hjmem
  · exact List.mem_map.mpr ⟨jm, hmem', rfl⟩

/-- Witness for C4 amended: the concrete two-entry fetch. -/
theorem C4_amended_witness :
    (∃ m : Int,
      fmLookup (mapIssueToFrontmatter exIssueJ) "lastJournalId" = some (.num m) ∧
      (10 : Int) ≤ m ∧ (∀ j ∈ [exJournal10, exJournal11], j.id ≤ m) ∧
      m ∈ [exJournal10, exJournal11].map (fun j => j.id)) :=
  C4_amended exIssueJ [exJournal10, exJournal11] exFileSynced 10 rfl (by decide)
    rfl (by decide)

/-! ## String-scanning lemmas

Positioning facts about `firstIdx` (the model of `indexOf`/regex match),
used to compute what `matter` and the anchor scanner see on
engine-serialized documents. -/

/-- `takeWhile` runs through a prefix whose members all satisfy `p`. -/
theorem takeWhile_append_all {p : α → Bool} {A : List α} (B : List α)
    (h : ∀ a ∈ A, p a = true) :
    (A ++ B).takeWhile p = A ++ B.takeWhile p := by
  induction A with
  | nil => rfl
  | cons a t ih =>
      simp only [List.cons_append, List.takeWhile_cons, h a (by simp), if_true]
      rw [ih (fun x hx => h x (by simp [hx]))]

/-- `dropWhile` removes a prefix whose members all satisfy `p`. -/
theorem dropWhile_append_all {p : α → Bool} {A : List α} (B : List α)
    (h : ∀ a ∈ A, p a = true) :
    (A ++ B).dropWhile p = B.dropWhile p := by
  induction A with
  | nil => rfl
  | cons a t ih =>
      simp only [List.cons_append, List.dropWhile_cons, h a (by simp)]
      exact ih (fun x hx => h x (by simp [hx]))

/-- A list whose `trimList` is empty is all whitespace. -/
theorem all_ws_of_trimList_nil {l : List Char} (h : trimList l = []) :
    ∀ c ∈ l, isWsChar c = true := by
  unfold trimList at h
  have h2 : (l.dropWhile isWsChar).reverse.dropWhile isWsChar = [] := by
    cases hh : (l.dropWhile isWsChar).reverse.dropWhile isWsChar with
    | nil => rfl
    | cons a t => rw [hh] at h; simp at h
  have h3 : ∀ c ∈ (l.dropWhile isWsChar).reverse, isWsChar c = true :=
    List.dropWhile_eq_nil_iff.mp h2
  have h4 : ∀ c ∈ l.dropWhile isWsChar, isWsChar c = true := by
    intro c hc
    exact h3 c (List.mem_reverse.mpr hc)
  intro c hc
  rw [← List.takeWhile_append_dropWhile (p := isWsChar) (l := l)] at hc
  rcases List.mem_append.mp hc with h | h
  · exact List.mem_takeWhile_imp h
  · exact h4 c h

/-- A list containing a non-whitespace member has nonempty trim. -/
theorem trimList_ne_nil_of_mem {l : List Char} {c : Char} (hc : c ∈ l)
    (hw : isWsChar c = false) : trimList l ≠ [] := by
  intro h
  rw [all_ws_of_trimList_nil h c hc] at hw
  exact Bool.noConfusion hw

/-- Trimming ignores all-whitespace padding on both sides. -/
theorem trimList_append_ws (a s b : List Char)
    (ha : ∀ c ∈ a, isWsChar c = true) (hb : ∀ c ∈ b, isWsChar c = true) :
    trimList (a ++ s ++ b) = trimList s := by
  unfold trimList
  rw [List.append_assoc, dropWhile_append_all (s ++ b) ha]
  rw [List.dropWhile_append]
  by_cases hd : (s.dropWhile isWsChar).isEmpty = true
  · rw [if_pos hd]
    rw [List.dropWhile_eq_nil_iff.mpr hb]
    have hs0 : s.dropWhile isWsChar = [] := by
      cases h : s.dropWhile isWsChar with
      | nil => rfl
      | cons x y => rw [h] at hd; simp at hd
    rw [hs0]
  · rw [if_neg hd]
    rw [List.reverse_append]
    rw [dropWhile_append_all ((s.dropWhile isWsChar).reverse)
      (fun c hc => hb c (List.mem_reverse.mp hc))]

/-- Trimming a trim-fixed core sandwiched between whitespace recovers it. -/
theorem trimList_sandwich (a s b : List Char)
    (ha : ∀ c ∈ a, isWsChar c = true) (hb : ∀ c ∈ b, isWsChar c = true)
    (hs : trimList s = s) :
    trimList (a ++ s ++ b) = s := by
  rw [trimList_append_ws a s b ha hb, hs]

/-- Occurrences are preserved under offset: the scanner's result is `some`
independently of the running index. -/
theorem firstIdxAux_isSome_indep (pat : List Char) (hay : List Char) (i i' : Nat) :
    (firstIdxAux pat hay i).isSome = (firstIdxAux pat hay i').isSome := by
  induction hay generalizing i i' with
  | nil => unfold firstIdxAux; by_cases h : pat = [] <;> simp [h]
  | cons a t ih =>
      unfold firstIdxAux
      by_cases h : pat.isPrefixOf (a :: t) = true
      · rw [if_pos h, if_pos h]; rfl
      · rw [if_neg h, if_neg h]
        exact ih (i + 1) (i' + 1)

/-- An occurrence anywhere makes `hasSubB` true. -/
theorem hasSubB_of_occ {pat hay : List Char} {j : Nat}
    (h : pat.isPrefixOf (hay.drop j) = true) : hasSubB hay pat = true := by
  induction hay generalizing j with
  | nil =>
      simp only [List.drop_nil] at h
      have : pat = [] := by
        cases pat with
        | nil => rfl
        | cons p t => simp [List.isPrefixOf] at h
      unfold hasSubB firstIdx firstIdxAux
      rw [if_pos this]
      rfl
  | cons a t ih =>
      unfold hasSubB firstIdx firstIdxAux
      by_cases hh : pat.isPrefixOf (a :: t) = true
      · rw [if_pos hh]; rfl
      · rw [if_neg hh]
        cases j with
        | zero => rw [List.drop_zero] at h; exact absurd h hh
        | succ j' =>
            rw [List.drop_succ_cons] at h
            have := ih h
            unfold hasSubB firstIdx at this
            rw [show (firstIdxAux pat t 1).isSome = (firstIdxAux pat t 0).isSome from
              firstIdxAux_isSome_indep pat t 1 0]
            exact this

/-- From `hasSubB hay pat = false`: no occurrence at any index. -/
theorem no_occ_of_hasSubB_false {pat hay : List Char} (h : hasSubB hay pat = false) :
    ∀ j, pat.isPrefixOf (hay.drop j) = false := by
  intro j
  cases ho : pat.isPrefixOf (hay.drop j) with
  | false => rfl
  | true => rw [hasSubB_of_occ ho] at h; exact Bool.noConfusion h

/-- The scanner finds the seam occurrence when nothing occurs earlier. -/
theorem firstIdxAux_append_of_occ (pat : List Char) (A R : List Char) (i : Nat)
    (hR : pat.isPrefixOf R = true)
    (hA : ∀ j, j < A.length → pat.isPrefixOf ((A ++ R).drop j) = false) :
    firstIdxAux pat (A ++ R) i = some (i + A.length) := by
  induction A generalizing i with
  | nil =>
      cases hRc : R with
      | nil =>
          subst hRc
          have hp : pat = [] := by
            cases pat with
            | nil => rfl
            | cons p t => simp [List.isPrefixOf] at hR
          show firstIdxAux pat [] i = some (i + 0)
          unfold firstIdxAux
          rw [if_pos hp]
          simp
      | cons r rs =>
          subst hRc
          show firstIdxAux pat (r :: rs) i = some (i + 0)
          unfold firstIdxAux
          rw [if_pos hR]
          simp
  | cons a t ih =>
      show firstIdxAux pat (a :: (t ++ R)) i = some (i + (t.length + 1))
      unfold firstIdxAux
      have h0 : pat.isPrefixOf (a :: (t ++ R)) = false := by
        have := hA 0 (by simp)
        simpa using this
      rw [if_neg (by rw [h0]; exact Bool.noConfusion)]
      rw [ih (i + 1) (fun j hj => by
        have := hA (j + 1) (by simp; omega)
        simpa using this)]
      congr 1
      omega

/-- `firstIdx` positions the first occurrence at the seam. -/
theorem firstIdx_append_of_occ (pat A R : List Char)
    (hR : pat.isPrefixOf R = true)
    (hA : ∀ j, j < A.length → pat.isPrefixOf ((A ++ R).drop j) = false) :
    firstIdx pat (A ++ R) = some A.length := by
  unfold firstIdx
  rw [firstIdxAux_append_of_occ pat A R 0 hR hA]
  simp

/-- `firstIdx` is `none` when there is no occurrence at all. -/
theorem firstIdx_none_of_no_occ (pat hay : List Char) (hpat : pat ≠ [])
    (h : ∀ j, pat.isPrefixOf (hay.drop j) = false) :
    firstIdx pat hay = none := by
  suffices haux : ∀ i, firstIdxAux pat hay i = none from haux 0
  induction hay with
  | nil =>
      intro i
      unfold firstIdxAux
      rw [if_neg hpat]
  | cons a t ih =>
      intro i
      unfold firstIdxAux
      have h0 : pat.isPrefixOf (a :: t) = false := by simpa using h 0
      rw [if_neg (by rw [h0]; exact Bool.noConfusion)]
      exact ih (fun j => by simpa using h (j + 1)) (i + 1)

/-- A prefix of `u ++ v` no longer than `u` is a prefix of `u`. -/
theorem isPrefixOf_append_left {pat u v : List Char}
    (h : pat.isPrefixOf (u ++ v) = true) (hlen : pat.length ≤ u.length) :
    pat.isPrefixOf u = true := by
  rw [List.isPrefixOf_iff_prefix] at h ⊢
  rw [List.prefix_iff_eq_take] at h ⊢
  rw [List.take_append_eq_append_take] at h
  rw [Nat.sub_eq_zero_of_le hlen] at h
  simpa using h

/-- A pattern without newlines cannot straddle a `'\n'` separator: an
occurrence lies entirely left of it or starts strictly after it. -/
theorem occ_segment {pat U V : List Char} {j : Nat} (hnl : ('\n' : Char) ∉ pat)
    (h : pat.isPrefixOf ((U ++ '\n' :: V).drop j) = true) :
    j + pat.length ≤ U.length ∨ U.length + 1 ≤ j := by
  by_cases hj : U.length + 1 ≤ j
  · exact Or.inr hj
  · left
    by_contra hcov
    push_neg at hcov
    have hjU : j ≤ U.length := by omega
    have hU : U.length - j < pat.length := by omega
    rw [List.drop_append_of_le_length hjU] at h
    rw [List.isPrefixOf_iff_prefix, List.prefix_iff_eq_take] at h
    have hlendrop : (U.drop j).length = U.length - j := by
      rw [List.length_drop]
    have hmem : ('\n' : Char) ∈ pat := by
      rw [h, List.take_append_eq_append_take, hlendrop]
      refine List.mem_append.mpr (Or.inr ?_)
      rw [show pat.length - (U.length - j) = (pat.length - (U.length - j) - 1) + 1 by omega]
      simp
    exact hnl hmem

/-- March one separator: with no occurrence inside `U`, an occurrence in
`U ++ '\n' :: V` lies in `V`, at the corresponding shifted index. -/
theorem occ_step {pat U V : List Char} {j : Nat}
    (hU : hasSubB U pat = false)
    (hnl : ('\n' : Char) ∉ pat)
    (h : pat.isPrefixOf ((U ++ '\n' :: V).drop j) = true) :
    ∃ j', j = U.length + 1 + j' ∧ pat.isPrefixOf (V.drop j') = true := by
  rcases occ_segment hnl h with hleft | hright
  · exfalso
    have hjU : j ≤ U.length := le_trans (Nat.le_add_right ..) hleft
    rw [List.drop_append_of_le_length hjU] at h
    have hfull : pat.isPrefixOf (U.drop j) = true := by
      refine isPrefixOf_append_left h ?_
      rw [List.length_drop]
      omega
    rw [no_occ_of_hasSubB_false hU j] at hfull
    exact Bool.noConfusion hfull
  · refine ⟨j - U.length - 1, by omega, ?_⟩
    rw [List.drop_append_eq_append_drop] at h
    rw [List.drop_eq_nil_iff.mpr (by omega)] at h
    rw [List.nil_append] at h
    rw [show j - U.length = (j - U.length - 1) + 1 by omega] at h
    rw [List.drop_succ_cons] at h
    exact h

/-! ## YAML codec round trip

`yamlLoad` is a left inverse of `yamlDumpTrimmed` on engine-shaped
frontmatter.  The chain: numeral printing, quoted-string escaping, scalar
tokens, flow objects, lines. -/

/-- `Nat.digitChar` below 10 is the ASCII digit. -/
theorem digitChar_toNat : ∀ d, d < 10 → (Nat.digitChar d).toNat = 48 + d := by decide

/-- `digitsVal` step for an appended digit. -/
theorem digitsVal_append_digit (l : List Char) (c : Char) :
    digitsVal (l ++ [c]) = digitsVal l * 10 + (c.toNat - 48) := by
  unfold digitsVal
  rw [List.foldl_append]
  rfl

/-- Reversed mapped digits evaluate to the number (big-endian reading). -/
theorem digitsVal_rev_map (L : List Nat) (hL : ∀ d ∈ L, d < 10) :
    digitsVal ((L.map Nat.digitChar).reverse) = Nat.ofDigits 10 L := by
  induction L with
  | nil => simp [digitsVal, Nat.ofDigits_nil]
  | cons d L ih =>
      simp only [List.map_cons, List.reverse_cons]
      rw [digitsVal_append_digit]
      rw [ih (fun x hx => hL x (by simp [hx]))]
      rw [Nat.ofDigits_cons]
      rw [digitChar_toNat d (hL d (by simp))]
      omega

/-- The decimal digits of `n` evaluate back to `n`. -/
theorem digitsVal_natDigits (n : Nat) : digitsVal (natDigits n) = n := by
  unfold natDigits
  rw [show (Nat.digits 10 n).reverse.map Nat.digitChar =
      ((Nat.digits 10 n).map Nat.digitChar).reverse from List.map_reverse ..]
  rw [digitsVal_rev_map _ (fun d hd => Nat.digits_lt_base (by norm_num) hd)]
  exact Nat.ofDigits_digits 10 n

/-- Every character of `natDigits` is a digit. -/
theorem natDigits_all_digits (n : Nat) : ∀ c ∈ natDigits n, isDigitChar c = true := by
  intro c hc
  unfold natDigits at hc
  obtain ⟨d, hd, rfl⟩ := List.mem_map.mp hc
  have hlt : d < 10 := Nat.digits_lt_base (by norm_num) (List.mem_reverse.mp hd)
  unfold isDigitChar
  rw [digitChar_toNat d hlt]
  simp only [Bool.and_eq_true, decide_eq_true_eq]
  omega

/-- `natRepr` is a nonempty all-digit numeral evaluating to `n`. -/
theorem natRepr_spec (n : Nat) :
    (natRepr n).data ≠ [] ∧ (∀ c ∈ (natRepr n).data, isDigitChar c = true) ∧
    digitsVal (natRepr n).data = n := by
  unfold natRepr
  by_cases h : n = 0
  · subst h
    refine ⟨by decide, by decide, by decide⟩
  · rw [if_neg h]
    refine ⟨?_, natDigits_all_digits n, digitsVal_natDigits n⟩
    show natDigits n ≠ []
    unfold natDigits
    simp only [ne_eq, List.reverse_eq_nil_iff, List.map_eq_nil_iff]
    exact Nat.digits_ne_nil_iff_ne_zero.mpr h

/-- Digits are not any of the structural characters. -/
theorem digit_ne_chars {c : Char} (h : isDigitChar c = true) :
    c ≠ '"' ∧ c ≠ '[' ∧ c ≠ '-' ∧ c ≠ '{' ∧ c ≠ '}' ∧ c ≠ ']' ∧ c ≠ ':' ∧
    c ≠ ',' ∧ c ≠ '\n' ∧ isWsChar c = false := by
  unfold isDigitChar at h
  simp only [Bool.and_eq_true, decide_eq_true_eq] at h
  obtain ⟨h1, h2⟩ := h
  refine ⟨?_, ?_, ?_, ?_, ?_, ?_, ?_, ?_, ?_, ?_⟩
  all_goals
    first
      | (rintro rfl
         first
           | exact absurd h1 (by decide)
           | exact absurd h2 (by decide))
      | (unfold isWsChar
         cases hw : (c = ' ' || c = '\t' || c = '\n' || c = '\r' ||
             c = '\x0b' || c = '\x0c' : Bool) with
         | false => rfl
         | true =>
             exfalso
             simp only [Bool.or_eq_true, decide_eq_true_eq] at hw
             rcases hw with ((((hw | hw) | hw) | hw) | hw) | hw <;>
               (subst hw
                first
                  | exact absurd h1 (by decide)
                  | exact absurd h2 (by decide)))

/-- `takeWhile` stops at the head of the suffix when it fails there. -/
theorem takeWhile_append_stop {p : α → Bool} {A B : List α}
    (hA : ∀ a ∈ A, p a = true)
    (hB : ∀ c, B.head? = some c → p c = false) :
    (A ++ B).takeWhile p = A := by
  rw [takeWhile_append_all B hA]
  cases B with
  | nil => simp
  | cons b t =>
      rw [List.takeWhile_cons, hB b rfl]
      simp

/-- `parseNumTok` reads back a printed integer, stopping at the suffix. -/
theorem parseNumTok_intRepr (n : Int) (rest : List Char)
    (hrest : ∀ c, rest.head? = some c → isDigitChar c = false) :
    parseNumTok ((intRepr n).data ++ rest) = some (.num n, rest) := by
  obtain ⟨hne, hdig, hval⟩ := natRepr_spec n.natAbs
  have htake : ((natRepr n.natAbs).data ++ rest).takeWhile isDigitChar =
      (natRepr n.natAbs).data := takeWhile_append_stop hdig hrest
  have hdrop : ((natRepr n.natAbs).data ++ rest).drop ((natRepr n.natAbs).data).length
      = rest := by
    rw [List.drop_append_of_le_length (le_refl _), List.drop_length, List.nil_append]
  obtain ⟨d0, t0, hd0⟩ : ∃ d0 t0, (natRepr n.natAbs).data = d0 :: t0 := by
    cases hh : (natRepr n.natAbs).data with
    | nil => exact absurd hh hne
    | cons x y => exact ⟨x, y, rfl⟩
  have hd0dig : isDigitChar d0 = true := hdig d0 (by rw [hd0]; simp)
  unfold intRepr
  by_cases hneg : n < 0
  · rw [if_pos hneg]
    unfold parseNumTok
    rw [String.data_append]
    rw [show ("-" : String).data = ['-'] from rfl]
    rw [List.singleton_append, List.cons_append]
    rw [if_pos (show ('-' :: ((natRepr n.natAbs).data ++ rest)).head? = some '-'
      from rfl)]
    rw [show ('-' :: ((natRepr n.natAbs).data ++ rest)).tail =
      (natRepr n.natAbs).data ++ rest from rfl]
    rw [htake]
    rw [if_pos (by simpa using hne)]
    rw [hdrop, hval]
    have he : -((n.natAbs : Int)) = n := by omega
    rw [he]
  · rw [if_neg hneg]
    unfold parseNumTok
    have hhead : ((natRepr n.natAbs).data ++ rest).head? = some d0 := by
      rw [hd0]; rfl
    rw [hhead]
    rw [if_neg (fun hcon =>
      (digit_ne_chars hd0dig).2.2.1 (Option.some.inj hcon))]
    rw [htake]
    rw [if_pos (by simpa using hne)]
    rw [hdrop, hval]
    have he : ((n.natAbs : Int)) = n := by omega
    rw [he]

/-- Unescaping inverts escaping, up to the closing quote. -/
theorem parseQuoted_escList (s rest : List Char) :
    parseQuoted (escList s ++ '"' :: rest) = some (s, rest) := by
  induction s with
  | nil =>
      show parseQuoted ('"' :: rest) = some ([], rest)
      unfold parseQuoted
      rw [if_pos rfl]
  | cons c t ih =>
      rw [show escList (c :: t) = escChar c ++ escList t from rfl, List.append_assoc]
      by_cases h1 : c = '"'
      · subst h1
        rw [show escChar '"' = ['\\', '"'] from rfl]
        show parseQuoted ('\\' :: '"' :: (escList t ++ '"' :: rest)) = _
        unfold parseQuoted
        rw [if_neg (by decide), if_pos rfl]
        show (parseQuoted (escList t ++ '"' :: rest)).map _ = _
        rw [ih]
        show some ((if ('"' : Char) = 'n' then '\n' else '"') :: t, rest) = _
        rw [if_neg (by decide)]
      · by_cases h2 : c = '\\'
        · subst h2
          rw [show escChar '\\' = ['\\', '\\'] from rfl]
          show parseQuoted ('\\' :: '\\' :: (escList t ++ '"' :: rest)) = _
          unfold parseQuoted
          rw [if_neg (by decide), if_pos rfl]
          show (parseQuoted (escList t ++ '"' :: rest)).map _ = _
          rw [ih]
          show some ((if ('\\' : Char) = 'n' then '\n' else '\\') :: t, rest) = _
          rw [if_neg (by decide)]
        · by_cases h3 : c = '\n'
          · subst h3
            rw [show escChar '\n' = ['\\', 'n'] from rfl]
            show parseQuoted ('\\' :: 'n' :: (escList t ++ '"' :: rest)) = _
            unfold parseQuoted
            rw [if_neg (by decide), if_pos rfl]
            show (parseQuoted (escList t ++ '"' :: rest)).map _ = _
            rw [ih]
            show some ((if ('n' : Char) = 'n' then '\n' else 'n') :: t, rest) = _
            rw [if_pos rfl]
          · rw [show escChar c = (if c = '"' then ['\\', '"']
                else if c = '\\' then ['\\', '\\']
                else if c = '\n' then ['\\', 'n'] else [c]) from rfl,
              if_neg h1, if_neg h2, if_neg h3]
            show parseQuoted (c :: (escList t ++ '"' :: rest)) = _
            unfold parseQuoted
            rw [if_neg h1, if_neg h2]
            rw [ih]
            rfl

/-- A dumped quoted string parses back with the remainder intact. -/
theorem parseValueAux_dumpStr (s : String) (rest : List Char) (fuel : Nat) :
    parseValueAux fuel ((dumpStr s).data ++ rest) = some (.str s, rest) := by
  rw [show (dumpStr s).data = '"' :: (escList s.data ++ ['"']) from rfl]
  rw [List.cons_append, List.append_assoc, List.singleton_append]
  unfold parseValueAux
  rw [if_pos (show ('"' :: (escList s.data ++ '"' :: rest)).head? = some '"' from rfl)]
  rw [show ('"' :: (escList s.data ++ '"' :: rest)).tail =
    escList s.data ++ '"' :: rest from rfl]
  rw [parseQuoted_escList]
  rfl

/-- A dumped scalar parses back, stopping before a non-digit remainder. -/
theorem parseValueAux_scalar (v : FmValue) (hs : scalarValue v = true)
    (rest : List Char) (fuel : Nat)
    (hrest : ∀ c, rest.head? = some c → isDigitChar c = false) :
    parseValueAux fuel ((dumpValue v).data ++ rest) = some (v, rest) := by
  cases v with
  | str s => exact parseValueAux_dumpStr s rest fuel
  | arr objs => exact absurd hs (by simp [scalarValue])
  | num n =>
      show parseValueAux fuel ((intRepr n).data ++ rest) = _
      have hhead : ∃ c0, ((intRepr n).data ++ rest).head? = some c0 ∧
          (c0 = '-' ∨ isDigitChar c0 = true) := by
        obtain ⟨hne, hdig, _⟩ := natRepr_spec n.natAbs
        obtain ⟨d0, t0, hd0⟩ : ∃ d0 t0, (natRepr n.natAbs).data = d0 :: t0 := by
          cases hh : (natRepr n.natAbs).data with
          | nil => exact absurd hh hne
          | cons x y => exact ⟨x, y, rfl⟩
        unfold intRepr
        by_cases hneg : n < 0
        · rw [if_pos hneg]
          exact ⟨'-', by rw [String.data_append]; rfl, Or.inl rfl⟩
        · rw [if_neg hneg]
          refine ⟨d0, by rw [hd0]; rfl, Or.inr (hdig d0 (by rw [hd0]; simp))⟩
      obtain ⟨c0, hc0, hc0c⟩ := hhead
      unfold parseValueAux
      rw [hc0]
      rw [if_neg (fun hcon => by
        have : c0 = '"' := Option.some.inj hcon
        rcases hc0c with h | h
        · rw [this] at h; exact absurd h (by decide)
        · exact (digit_ne_chars h).1 this)]
      rw [if_neg (fun hcon => by
        have : c0 = '[' := Option.some.inj hcon
        rcases hc0c with h | h
        · rw [this] at h; exact absurd h (by decide)
        · exact (digit_ne_chars h).2.1 this)]
      exact parseNumTok_intRepr n rest hrest

/-- Unpack `keyWfB`. -/
theorem keyWfB_spec {k : String} (hk : keyWfB k = true) :
    k.data ≠ [] ∧ (∀ c ∈ k.data, c ≠ ':') ∧ (∀ c ∈ k.data, c ≠ '\n') ∧
    (∀ c ∈ k.data, c ≠ '}') ∧ (∀ c ∈ k.data, c ≠ '"') ∧
    k.data.head? ≠ some '-' ∧ k.data.head? ≠ some '#' ∧
    k.data.head? ≠ some '[' ∧ isWsChar (k.data.headD 'x') = false := by
  unfold keyWfB at hk
  simp only [Bool.and_eq_true, decide_eq_true_eq, Bool.not_eq_true'] at hk
  obtain ⟨⟨⟨⟨⟨⟨⟨⟨h1, h2⟩, h3⟩, h4⟩, h5⟩, h6⟩, h7⟩, h8⟩, h9⟩ := hk
  refine ⟨h1, ?_, ?_, ?_, ?_, h6, h7, h8, h9⟩
  · intro c hc hcon; subst hcon; simp at h2; exact h2 hc
  · intro c hc hcon; subst hcon; simp at h3; exact h3 hc
  · intro c hc hcon; subst hcon; simp at h4; exact h4 hc
  · intro c hc hcon; subst hcon; simp at h5; exact h5 hc

/-- The dumped-pairs string of a flow object parses back. -/
theorem parsePairs_dump (o : List (String × FmValue))
    (hwf : ∀ p ∈ o, keyWfB p.1 = true ∧ scalarValue p.2 = true)
    (rest : List Char) : ∀ fuel, o.length + 1 ≤ fuel →
    parsePairs fuel ((dumpPairs o).data ++ '}' :: rest) = some (o, rest) := by
  induction o generalizing rest with
  | nil =>
      intro fuel hf
      obtain ⟨f, rfl⟩ : ∃ f, fuel = f + 1 := ⟨fuel - 1, by omega⟩
      show parsePairs (f + 1) ('}' :: rest) = some ([], rest)
      unfold parsePairs
      rw [if_pos (show ('}' :: rest).head? = some '}' from rfl)]
      rfl
  | cons p t ih =>
      intro fuel hf
      obtain ⟨f, rfl⟩ : ∃ f, fuel = f + 1 := ⟨fuel - 1, by omega⟩
      obtain ⟨k, v⟩ := p
      obtain ⟨hk, hv⟩ := hwf (k, v) (by simp)
      obtain ⟨hkne, hkcolon, _, hkbrace, _, _, _, _, _⟩ := keyWfB_spec hk
      obtain ⟨k0, kt, hk0⟩ : ∃ k0 kt, k.data = k0 :: kt := by
        cases hh : k.data with
        | nil => exact absurd hh hkne
        | cons x y => exact ⟨x, y, rfl⟩
      have hkeypred : ∀ c ∈ k.data, (decide (c ≠ ':') && decide (c ≠ '}')) = true := by
        intro c hc
        simp [hkcolon c hc, hkbrace c hc]
      cases t with
      | nil =>
          have hL : (dumpPairs [(k, v)]).data ++ '}' :: rest =
              k.data ++ ':' :: ' ' :: ((dumpValue v).data ++ '}' :: rest) := by
            rw [show dumpPairs [(k, v)] = k ++ ": " ++ dumpValue v from rfl]
            rw [String.data_append, String.data_append]
            rw [List.append_assoc, List.append_assoc]
            rfl
          rw [hL]
          unfold parsePairs
          rw [if_neg (by
            rw [hk0]
            intro hcon
            exact hkbrace k0 (by rw [hk0]; simp) (Option.some.inj hcon))]
          rw [takeWhile_append_stop hkeypred (fun c hc => by
            rw [show c = ':' from (Option.some.inj hc).symm]
            decide)]
          rw [List.drop_left]
          rw [if_pos (by exact rfl)]
          rw [show (':' :: ' ' :: ((dumpValue v).data ++ '}' :: rest)).tail.tail =
            (dumpValue v).data ++ '}' :: rest from rfl]
          rw [parseValueAux_scalar v hv ('}' :: rest) f (fun c hc => by
            rw [show c = '}' from (Option.some.inj hc).symm]
            decide)]
          rfl
      | cons q t' =>
          have hL : (dumpPairs ((k, v) :: q :: t')).data ++ '}' :: rest =
              k.data ++ ':' :: ' ' :: ((dumpValue v).data ++ ',' :: ' ' ::
                ((dumpPairs (q :: t')).data ++ '}' :: rest)) := by
            rw [show dumpPairs ((k, v) :: q :: t') =
              k ++ ": " ++ dumpValue v ++ ", " ++ dumpPairs (q :: t') from rfl]
            rw [String.data_append, String.data_append, String.data_append,
              String.data_append]
            rw [List.append_assoc, List.append_assoc, List.append_assoc,
              List.append_assoc]
            rfl
          rw [hL]
          unfold parsePairs
          rw [if_neg (by
            rw [hk0]
            intro hcon
            exact hkbrace k0 (by rw [hk0]; simp) (Option.some.inj hcon))]
          rw [takeWhile_append_stop hkeypred (fun c hc => by
            rw [show c = ':' from (Option.some.inj hc).symm]
            decide)]
          rw [List.drop_left]
          rw [if_pos (by exact rfl)]
          rw [show (':' :: ' ' :: ((dumpValue v).data ++ ',' :: ' ' ::
            ((dumpPairs (q :: t')).data ++ '}' :: rest))).tail.tail =
            (dumpValue v).data ++ ',' :: ' ' ::
              ((dumpPairs (q :: t')).data ++ '}' :: rest) from rfl]
          rw [parseValueAux_scalar v hv _ f (fun c hc => by
            rw [show c = ',' from (Option.some.inj hc).symm]
            decide)]
          show Option.map (fun x => ((k, v) :: x.1, x.2))
            (parsePairs f ((dumpPairs (q :: t')).data ++ '}' :: rest)) =
            some ((k, v) :: q :: t', rest)
          rw [ih (fun p hp => hwf p (by simp [hp])) rest f (by
            simp only [List.length_cons] at hf ⊢
            omega)]
          rfl

/-- Unfolding equation for `parseObjList` at positive fuel. -/
theorem parseObjList_succ (f : Nat) (l : List Char) :
    parseObjList (f + 1) l =
      (if l.head? = some '{' then
        match parsePairs f l.tail with
        | none => none
        | some (o, r) =>
          if r.head? = some ']' then some ([o], r.tail)
          else if r.head? = some ',' && r.tail.head? = some ' ' then
            (parseObjList f r.tail.tail).map fun (objs, r') => (o :: objs, r')
          else none
      else none) := rfl

/-- The dumped flow object list parses back up to the closing bracket. -/
theorem parseObjList_dump (objs : List (List (String × FmValue))) :
    ∀ (rest : List Char) (fuel : Nat), objs ≠ [] →
    (∀ o ∈ objs, ∀ p ∈ o, keyWfB p.1 = true ∧ scalarValue p.2 = true) →
    (objs.map List.length).sum + objs.length + 1 ≤ fuel →
    parseObjList fuel ((dumpObjList objs).data ++ ']' :: rest) = some (objs, rest) := by
  induction objs with
  | nil => intro rest fuel hne _ _; exact absurd rfl hne
  | cons o t ih =>
      intro rest fuel _ hwf hf
      obtain ⟨f, rfl⟩ : ∃ f, fuel = f + 1 := ⟨fuel - 1, by omega⟩
      cases t with
      | nil =>
          have hL : (dumpObjList [o]).data ++ ']' :: rest =
              '{' :: ((dumpPairs o).data ++ '}' :: ']' :: rest) := by
            rw [show dumpObjList [o] = "\x7b" ++ dumpPairs o ++ "\x7d" from rfl]
            rw [String.data_append, String.data_append]
            rw [List.append_assoc, List.append_assoc]
            rfl
          rw [hL]
          rw [parseObjList_succ]
          rw [if_pos (by exact rfl)]
          rw [show ('{' :: ((dumpPairs o).data ++ '}' :: ']' :: rest)).tail =
            (dumpPairs o).data ++ '}' :: ']' :: rest from rfl]
          rw [parsePairs_dump o (hwf o (by simp)) (']' :: rest) f (by
            simp only [List.map_cons, List.sum_cons, List.length_cons] at hf
            omega)]
          rfl
      | cons q t' =>
          have hL : (dumpObjList (o :: q :: t')).data ++ ']' :: rest =
              '{' :: ((dumpPairs o).data ++ '}' :: ',' :: ' ' ::
                ((dumpObjList (q :: t')).data ++ ']' :: rest)) := by
            rw [show dumpObjList (o :: q :: t') =
              "\x7b" ++ dumpPairs o ++ "\x7d, " ++ dumpObjList (q :: t') from rfl]
            rw [String.data_append, String.data_append, String.data_append]
            rw [List.append_assoc, List.append_assoc, List.append_assoc]
            rfl
          rw [hL]
          rw [parseObjList_succ]
          rw [if_pos (by exact rfl)]
          rw [show ('{' :: ((dumpPairs o).data ++ '}' :: ',' :: ' ' ::
            ((dumpObjList (q :: t')).data ++ ']' :: rest))).tail =
            (dumpPairs o).data ++ '}' :: ',' :: ' ' ::
              ((dumpObjList (q :: t')).data ++ ']' :: rest) from rfl]
          rw [parsePairs_dump o (hwf o (by simp)) _ f (by
            simp only [List.map_cons, List.sum_cons, List.length_cons] at hf
            omega)]
          show Option.map (fun x => (o :: x.1, x.2))
            (parseObjList f ((dumpObjList (q :: t')).data ++ ']' :: rest)) =
            some (o :: q :: t', rest)
          rw [ih rest f (by simp) (fun o' ho' => hwf o' (by simp [ho'])) (by
            simp only [List.map_cons, List.sum_cons, List.length_cons] at hf ⊢
            omega)]
          rfl

/-- The dumped pairs of an object are at least as many characters as there
are pairs (each contributes at least the `: ` separator). -/
theorem dumpPairs_length (o : List (String × FmValue)) :
    o.length ≤ (dumpPairs o).data.length := by
  induction o with
  | nil => simp [dumpPairs]
  | cons p t ih =>
      obtain ⟨k, v⟩ := p
      cases t with
      | nil =>
          rw [show dumpPairs [(k, v)] = k ++ ": " ++ dumpValue v from rfl]
          rw [String.data_append, String.data_append]
          simp only [List.length_append, List.length_cons, List.length_nil]
          omega
      | cons q t' =>
          rw [show dumpPairs ((k, v) :: q :: t') =
            k ++ ": " ++ dumpValue v ++ ", " ++ dumpPairs (q :: t') from rfl]
          rw [String.data_append, String.data_append, String.data_append,
            String.data_append]
          simp only [List.length_append, List.length_cons, List.length_nil] at ih ⊢
          omega

/-- Lower bound relating the parsing fuel to the dumped object-list
length. -/
theorem dumpObjList_length (objs : List (List (String × FmValue))) :
    objs ≠ [] →
    (objs.map List.length).sum + objs.length ≤ (dumpObjList objs).data.length + 1 := by
  induction objs with
  | nil => intro hne; exact absurd rfl hne
  | cons o t ih =>
      intro _
      cases t with
      | nil =>
          rw [show dumpObjList [o] = "\x7b" ++ dumpPairs o ++ "\x7d" from rfl]
          rw [String.data_append, String.data_append]
          have h1 := dumpPairs_length o
          simp only [List.map_cons, List.sum_cons, List.map_nil, List.sum_nil,
            List.length_cons, List.length_nil, List.length_append]
          omega
      | cons q t' =>
          rw [show dumpObjList (o :: q :: t') =
            "\x7b" ++ dumpPairs o ++ "\x7d, " ++ dumpObjList (q :: t') from rfl]
          rw [String.data_append, String.data_append, String.data_append]
          have h1 := dumpPairs_length o
          have h4 := ih (by simp)
          simp only [List.map_cons, List.sum_cons, List.length_cons,
            List.length_nil, List.length_append] at h4 ⊢
          omega

/-- Any dumped well-formed value parses back from a prefix, given
`valueFuel` fuel and a non-digit remainder. -/
theorem parseValueAux_dump (v : FmValue) (hwf : valueWf v = true)
    (rest : List Char) (hrest : ∀ c, rest.head? = some c → isDigitChar c = false)
    (fuel : Nat) (hf : valueFuel v ≤ fuel) :
    parseValueAux fuel ((dumpValue v).data ++ rest) = some (v, rest) := by
  cases v with
  | num n => exact parseValueAux_scalar (.num n) rfl rest fuel hrest
  | str s => exact parseValueAux_dumpStr s rest fuel
  | arr objs =>
      cases objs with
      | nil =>
          show parseValueAux fuel ('[' :: ']' :: rest) = some (.arr [], rest)
          unfold parseValueAux
          rw [if_neg (by exact fun hcon => absurd (Option.some.inj hcon) (by decide))]
          rw [if_pos (by exact rfl), if_pos (by exact rfl)]
          rfl
      | cons o t =>
          obtain ⟨f, rfl⟩ : ∃ f, fuel = f + 1 := by
            refine ⟨fuel - 1, ?_⟩
            have : 2 ≤ valueFuel (.arr (o :: t)) := by
              show 2 ≤ ((o :: t).map List.length).sum + (o :: t).length + 2
              omega
            omega
          have hD : (dumpValue (.arr (o :: t))).data ++ rest =
              '[' :: ((dumpObjList (o :: t)).data ++ ']' :: rest) := by
            rw [show dumpValue (.arr (o :: t)) =
              "[" ++ dumpObjList (o :: t) ++ "]" from rfl]
            rw [String.data_append, String.data_append]
            rw [List.append_assoc, List.append_assoc]
            rfl
          obtain ⟨tl, htl⟩ : ∃ tl, (dumpObjList (o :: t)).data = '{' :: tl := by
            cases t with
            | nil =>
                refine ⟨(dumpPairs o).data ++ ("\x7d" : String).data, ?_⟩
                rw [show dumpObjList [o] = "\x7b" ++ dumpPairs o ++ "\x7d" from rfl]
                rw [String.data_append, String.data_append]
                rw [List.append_assoc]
                rfl
            | cons q t' =>
                refine ⟨(dumpPairs o).data ++ (("\x7d, " : String).data ++
                  (dumpObjList (q :: t')).data), ?_⟩
                rw [show dumpObjList (o :: q :: t') =
                  "\x7b" ++ dumpPairs o ++ "\x7d, " ++ dumpObjList (q :: t') from rfl]
                rw [String.data_append, String.data_append, String.data_append]
                rw [List.append_assoc, List.append_assoc]
                rfl
          rw [hD]
          unfold parseValueAux
          rw [if_neg (by exact fun hcon => absurd (Option.some.inj hcon) (by decide))]
          rw [if_pos (by exact rfl)]
          rw [if_neg (show ¬ (('[' :: ((dumpObjList (o :: t)).data ++ ']' :: rest)).tail.head?
              = some ']') from by
            rw [show ('[' :: ((dumpObjList (o :: t)).data ++ ']' :: rest)).tail =
              (dumpObjList (o :: t)).data ++ ']' :: rest from rfl]
            rw [htl, List.cons_append]
            exact fun hcon => absurd (Option.some.inj hcon) (by decide))]
          show (parseObjList f
            (('[' :: ((dumpObjList (o :: t)).data ++ ']' :: rest)).tail)).map
              (fun x => (FmValue.arr x.1, x.2)) = some (.arr (o :: t), rest)
          rw [show ('[' :: ((dumpObjList (o :: t)).data ++ ']' :: rest)).tail =
            (dumpObjList (o :: t)).data ++ ']' :: rest from rfl]
          rw [parseObjList_dump (o :: t) rest f (by simp)
            (by
              simp only [valueWf, List.all_eq_true, Bool.and_eq_true] at hwf
              exact fun o' ho' p hp => hwf o' ho' p hp)
            (by
              show ((o :: t).map List.length).sum + (o :: t).length + 1 ≤ f
              have : valueFuel (.arr (o :: t)) =
                ((o :: t).map List.length).sum + (o :: t).length + 2 := rfl
              omega)]
          rfl

/-- The dump of a value is long enough to cover its parsing fuel. -/
theorem valueFuel_le_dump (v : FmValue) :
    valueFuel v ≤ (dumpValue v).data.length + 1 := by
  cases v with
  | num n => exact Nat.zero_le _
  | str s => exact Nat.zero_le _
  | arr objs =>
      cases objs with
      | nil => decide
      | cons o t =>
          have h := dumpObjList_length (o :: t) (by simp)
          have hlen : (dumpValue (.arr (o :: t))).data.length =
              (dumpObjList (o :: t)).data.length + 2 := by
            rw [show dumpValue (.arr (o :: t)) =
              "[" ++ dumpObjList (o :: t) ++ "]" from rfl]
            rw [String.data_append, String.data_append]
            simp only [List.length_append, List.length_cons, List.length_nil]
            omega
          show ((o :: t).map List.length).sum + (o :: t).length + 2 ≤ _
          omega

/-- `parseValue` is a left inverse of `dumpValue` on well-formed values. -/
theorem parseValue_dump (v : FmValue) (hwf : valueWf v = true) :
    parseValue (dumpValue v) = some v := by
  unfold parseValue
  have h := parseValueAux_dump v hwf [] (fun c hc => by simp at hc)
    ((dumpValue v).data.length + 1) (valueFuel_le_dump v)
  rw [List.append_nil] at h
  rw [h]

/-- A dumped `key: value` line parses back to its pair. -/
theorem parseKVLine_dump (k : String) (v : FmValue)
    (hk : keyWfB k = true) (hv : valueWf v = true) :
    parseKVLine ((k ++ ": " ++ dumpValue v).data) = some (k, v) := by
  obtain ⟨hkne, hkcolon, _, _, _, _, _, _, _⟩ := keyWfB_spec hk
  have hL : (k ++ ": " ++ dumpValue v).data =
      k.data ++ ':' :: ' ' :: (dumpValue v).data := by
    rw [String.data_append, String.data_append]
    rw [List.append_assoc]
    rfl
  rw [hL]
  unfold parseKVLine
  rw [takeWhile_append_stop (fun c hc => by simp [hkcolon c hc])
    (fun c hc => by rw [show c = ':' from (Option.some.inj hc).symm]; decide)]
  rw [List.drop_left]
  rw [if_pos (by exact rfl)]
  show (parseValue (dumpValue v)).map (fun v' => (k, v')) = some (k, v)
  rw [parseValue_dump v hv]
  rfl

/-- Escaping never emits a raw newline. -/
theorem escChar_no_nl (c d : Char) (hd : d ∈ escChar c) : d ≠ '\n' := by
  unfold escChar at hd
  by_cases h1 : c = '"'
  · rw [if_pos h1] at hd
    intro hcon; subst hcon; exact absurd hd (by decide)
  · rw [if_neg h1] at hd
    by_cases h2 : c = '\\'
    · rw [if_pos h2] at hd
      intro hcon; subst hcon; exact absurd hd (by decide)
    · rw [if_neg h2] at hd
      by_cases h3 : c = '\n'
      · rw [if_pos h3] at hd
        intro hcon; subst hcon; exact absurd hd (by decide)
      · rw [if_neg h3] at hd
        simp at hd
        subst hd
        exact h3

/-- A dumped quoted scalar stays on one line. -/
theorem dumpStr_no_nl (s : String) (d : Char) (hd : d ∈ (dumpStr s).data) :
    d ≠ '\n' := by
  rw [show (dumpStr s).data = '"' :: (escList s.data ++ ['"']) from rfl] at hd
  simp only [List.mem_cons, List.mem_append] at hd
  rcases hd with rfl | h | h
  · decide
  · rw [escList] at h
    simp only [List.mem_flatMap] at h
    obtain ⟨c, _, hc⟩ := h
    exact escChar_no_nl c d hc
  · simp at h; subst h; decide

/-- A printed integer stays on one line. -/
theorem intRepr_no_nl (n : Int) (d : Char) (hd : d ∈ (intRepr n).data) :
    d ≠ '\n' := by
  obtain ⟨_, hdig, _⟩ := natRepr_spec n.natAbs
  unfold intRepr at hd
  by_cases hneg : n < 0
  · rw [if_pos hneg, String.data_append] at hd
    simp only [List.mem_append] at hd
    rcases hd with h | h
    · simp at h; subst h; decide
    · exact (digit_ne_chars (hdig d h)).2.2.2.2.2.2.2.2.1
  · rw [if_neg hneg] at hd
    exact (digit_ne_chars (hdig d hd)).2.2.2.2.2.2.2.2.1

/-- A dumped scalar value stays on one line. -/
theorem dumpValue_scalar_no_nl (v : FmValue) (hs : scalarValue v = true)
    (d : Char) (hd : d ∈ (dumpValue v).data) : d ≠ '\n' := by
  cases v with
  | num n => exact intRepr_no_nl n d hd
  | str s => exact dumpStr_no_nl s d hd
  | arr objs => exact absurd hs (by simp [scalarValue])

/-- The dumped pairs of a well-formed object stay on one line. -/
theorem dumpPairs_no_nl (o : List (String × FmValue)) :
    (∀ p ∈ o, keyWfB p.1 = true ∧ scalarValue p.2 = true) →
    ∀ d ∈ (dumpPairs o).data, d ≠ '\n' := by
  induction o with
  | nil => intro _ d hd; simp [dumpPairs] at hd
  | cons p t ih =>
      intro hwf d hd
      obtain ⟨k, v⟩ := p
      obtain ⟨hk, hv⟩ := hwf (k, v) (by simp)
      obtain ⟨_, _, hknl, _, _, _, _, _, _⟩ := keyWfB_spec hk
      cases t with
      | nil =>
          rw [show dumpPairs [(k, v)] = k ++ ": " ++ dumpValue v from rfl,
            String.data_append, String.data_append] at hd
          simp only [List.mem_append] at hd
          rcases hd with (h | h) | h
          · exact hknl d h
          · intro hcon; subst hcon; exact absurd h (by decide)
          · exact dumpValue_scalar_no_nl v hv d h
      | cons q t' =>
          rw [show dumpPairs ((k, v) :: q :: t') =
            k ++ ": " ++ dumpValue v ++ ", " ++ dumpPairs (q :: t') from rfl,
            String.data_append, String.data_append, String.data_append,
            String.data_append] at hd
          simp only [List.mem_append] at hd
          rcases hd with (((h | h) | h) | h) | h
          · exact hknl d h
          · intro hcon; subst hcon; exact absurd h (by decide)
          · exact dumpValue_scalar_no_nl v hv d h
          · intro hcon; subst hcon; exact absurd h (by decide)
          · exact ih (fun p hp => hwf p (by simp [hp])) d h

/-- A dumped well-formed object list stays on one line. -/
theorem dumpObjList_no_nl (objs : List (List (String × FmValue))) :
    (∀ o ∈ objs, ∀ p ∈ o, keyWfB p.1 = true ∧ scalarValue p.2 = true) →
    ∀ d ∈ (dumpObjList objs).data, d ≠ '\n' := by
  induction objs with
  | nil => intro _ d hd; simp [dumpObjList] at hd
  | cons o t ih =>
      intro hwf d hd
      cases t with
      | nil =>
          rw [show dumpObjList [o] = "\x7b" ++ dumpPairs o ++ "\x7d" from rfl,
            String.data_append, String.data_append] at hd
          simp only [List.mem_append] at hd
          rcases hd with (h | h) | h
          · intro hcon; subst hcon; exact absurd h (by decide)
          · exact dumpPairs_no_nl o (hwf o (by simp)) d h
          · intro hcon; subst hcon; exact absurd h (by decide)
      | cons q t' =>
          rw [show dumpObjList (o :: q :: t') =
            "\x7b" ++ dumpPairs o ++ "\x7d, " ++ dumpObjList (q :: t') from rfl,
            String.data_append, String.data_append, String.data_append] at hd
          simp only [List.mem_append] at hd
          rcases hd with ((h | h) | h) | h
          · intro hcon; subst hcon; exact absurd h (by decide)
          · exact dumpPairs_no_nl o (hwf o (by simp)) d h
          · intro hcon; subst hcon; exact absurd h (by decide)
          · exact ih (fun o' ho' => hwf o' (by simp [ho'])) d h

/-- A dumped well-formed value stays on one line. -/
theorem dumpValue_no_nl (v : FmValue) (hv : valueWf v = true) :
    ∀ d ∈ (dumpValue v).data, d ≠ '\n' := by
  cases v with
  | num n => exact fun d hd => intRepr_no_nl n d hd
  | str s => exact fun d hd => dumpStr_no_nl s d hd
  | arr objs =>
      intro d hd
      rw [show dumpValue (.arr objs) = "[" ++ dumpObjList objs ++ "]" from rfl,
        String.data_append, String.data_append] at hd
      simp only [List.mem_append] at hd
      rcases hd with (h | h) | h
      · intro hcon; subst hcon; exact absurd h (by decide)
      · refine dumpObjList_no_nl objs ?_ d h
        simp only [valueWf, List.all_eq_true, Bool.and_eq_true] at hv
        exact fun o ho p hp => hv o ho p hp
      · intro hcon; subst hcon; exact absurd h (by decide)

/-- The character-level decomposition of a dumped `key: value` line. -/
theorem kvline_data (k : String) (v : FmValue) :
    (k ++ ": " ++ dumpValue v).data = k.data ++ ':' :: ' ' :: (dumpValue v).data := by
  rw [String.data_append, String.data_append, List.append_assoc]
  rfl

/-- A dumped well-formed `key: value` line stays on one line. -/
theorem kvline_no_nl (k : String) (v : FmValue) (hk : keyWfB k = true)
    (hv : valueWf v = true) : ∀ d ∈ (k ++ ": " ++ dumpValue v).data, d ≠ '\n' := by
  intro d hd
  obtain ⟨_, _, hknl, _, _, _, _, _, _⟩ := keyWfB_spec hk
  rw [kvline_data] at hd
  simp only [List.mem_append, List.mem_cons] at hd
  rcases hd with h | rfl | rfl | h
  · exact hknl d h
  · decide
  · decide
  · exact dumpValue_no_nl v hv d h

/-- `splitLinesList` never returns the empty list of lines. -/
theorem splitLinesList_ne_nil (l : List Char) : splitLinesList l ≠ [] := by
  cases l with
  | nil => simp [splitLinesList]
  | cons c rest =>
      unfold splitLinesList
      by_cases h : c = '\n'
      · rw [if_pos h]; simp
      · rw [if_neg h]
        cases hh : splitLinesList rest with
        | nil => simp
        | cons a t => simp

/-- A newline-free list is a single line. -/
theorem splitLinesList_no_nl (A : List Char) (h : ∀ c ∈ A, c ≠ '\n') :
    splitLinesList A = [A] := by
  induction A with
  | nil => rfl
  | cons a t ih =>
      unfold splitLinesList
      rw [if_neg (h a (by simp))]
      rw [ih (fun c hc => h c (by simp [hc]))]

/-- Splitting after a newline-free prefix peels one line. -/
theorem splitLinesList_append (A B : List Char) (h : ∀ c ∈ A, c ≠ '\n') :
    splitLinesList (A ++ '\n' :: B) = A :: splitLinesList B := by
  induction A with
  | nil =>
      show splitLinesList ('\n' :: B) = [] :: splitLinesList B
      conv_lhs => unfold splitLinesList
      rw [if_pos rfl]
  | cons a t ih =>
      show splitLinesList (a :: (t ++ '\n' :: B)) = (a :: t) :: splitLinesList B
      conv_lhs => unfold splitLinesList
      rw [if_neg (h a (by simp))]
      rw [ih (fun c hc => h c (by simp [hc]))]

/-- The dumped frontmatter splits back into its `key: value` lines. -/
theorem splitLines_dump (fm : Frontmatter) :
    fmWf fm = true → fm ≠ [] →
    splitLinesList (yamlDumpTrimmed fm).data =
      fm.map (fun p => (p.1 ++ ": " ++ dumpValue p.2).data) := by
  induction fm with
  | nil => intro _ hne; exact absurd rfl hne
  | cons p t ih =>
      intro hwf _
      have hp : keyWfB p.1 = true ∧ valueWf p.2 = true := by
        simp only [fmWf, List.all_eq_true, Bool.and_eq_true] at hwf
        exact hwf p (by simp)
      cases t with
      | nil =>
          show splitLinesList (yamlDumpTrimmed [p]).data = _
          rw [show yamlDumpTrimmed [p] = p.1 ++ ": " ++ dumpValue p.2 from rfl]
          rw [splitLinesList_no_nl _ (kvline_no_nl p.1 p.2 hp.1 hp.2)]
          rfl
      | cons q t' =>
          rw [show yamlDumpTrimmed (p :: q :: t') =
            (p.1 ++ ": " ++ dumpValue p.2) ++ "\n" ++ yamlDumpTrimmed (q :: t')
            from rfl]
          have hD : ((p.1 ++ ": " ++ dumpValue p.2) ++ "\n" ++
              yamlDumpTrimmed (q :: t')).data =
              (p.1 ++ ": " ++ dumpValue p.2).data ++
                '\n' :: (yamlDumpTrimmed (q :: t')).data := by
            rw [String.data_append, String.data_append, List.append_assoc]
            rfl
          rw [hD]
          rw [splitLinesList_append _ _ (kvline_no_nl p.1 p.2 hp.1 hp.2)]
          rw [ih (by
            simp only [fmWf, List.all_cons, Bool.and_eq_true] at hwf ⊢
            exact hwf.2) (by simp)]
          rfl

/-- Loading a single newline-free line. -/
theorem yamlLoad_single (A : List Char) (h : ∀ c ∈ A, c ≠ '\n') :
    yamlLoad ⟨A⟩ =
      (if trimList A = [] then some []
       else match parseKVLine A with
         | some kv => some [kv]
         | none => none) := by
  unfold yamlLoad
  rw [show String.data ⟨A⟩ = A from rfl]
  rw [splitLinesList_no_nl A h]
  rfl

/-- Loading one newline-free line followed by the rest. -/
theorem yamlLoad_step (A B : List Char) (h : ∀ c ∈ A, c ≠ '\n') :
    yamlLoad ⟨A ++ '\n' :: B⟩ =
      (match yamlLoad ⟨B⟩ with
       | none => none
       | some fm =>
         if trimList A = [] then some fm
         else match parseKVLine A with
           | some kv => some (kv :: fm)
           | none => none) := by
  unfold yamlLoad
  rw [show String.data ⟨A ++ '\n' :: B⟩ = A ++ '\n' :: B from rfl]
  rw [splitLinesList_append A B h]
  rfl

/-- `yamlLoad` is a left inverse of the YAML dump on nonempty well-formed
mappings. -/
theorem yamlLoad_dump (fm : Frontmatter) :
    fmWf fm = true → fm ≠ [] →
    yamlLoad (yamlDumpTrimmed fm) = some fm := by
  induction fm with
  | nil => intro _ h; exact absurd rfl h
  | cons p t ih =>
      intro hwf _
      have hp : keyWfB p.1 = true ∧ valueWf p.2 = true := by
        simp only [fmWf, List.all_eq_true, Bool.and_eq_true] at hwf
        exact hwf p (by simp)
      obtain ⟨hkne, _, _, _, _, _, _, _, hkws⟩ := keyWfB_spec hp.1
      obtain ⟨c0, kt, hc0⟩ : ∃ c0 kt, p.1.data = c0 :: kt := by
        cases hh : p.1.data with
        | nil => exact absurd hh hkne
        | cons x y => exact ⟨x, y, rfl⟩
      have htrim : trimList (p.1 ++ ": " ++ dumpValue p.2).data ≠ [] := by
        refine trimList_ne_nil_of_mem (c := c0) ?_ ?_
        · rw [kvline_data, hc0]; simp
        · rw [hc0] at hkws; exact hkws
      cases t with
      | nil =>
          rw [show yamlDumpTrimmed [p] = p.1 ++ ": " ++ dumpValue p.2 from rfl]
          show yamlLoad ⟨(p.1 ++ ": " ++ dumpValue p.2).data⟩ = some [p]
          rw [yamlLoad_single _ (kvline_no_nl p.1 p.2 hp.1 hp.2)]
          rw [if_neg htrim]
          rw [parseKVLine_dump p.1 p.2 hp.1 hp.2]
      | cons q t' =>
          rw [show yamlDumpTrimmed (p :: q :: t') =
            (p.1 ++ ": " ++ dumpValue p.2) ++ "\n" ++ yamlDumpTrimmed (q :: t')
            from rfl]
          show yamlLoad ⟨((p.1 ++ ": " ++ dumpValue p.2) ++ "\n" ++
            yamlDumpTrimmed (q :: t')).data⟩ = some (p :: q :: t')
          rw [show ((p.1 ++ ": " ++ dumpValue p.2) ++ "\n" ++
            yamlDumpTrimmed (q :: t')).data =
            (p.1 ++ ": " ++ dumpValue p.2).data ++
              '\n' :: (yamlDumpTrimmed (q :: t')).data from by
            rw [String.data_append, String.data_append, List.append_assoc]
            rfl]
          rw [yamlLoad_step _ _ (kvline_no_nl p.1 p.2 hp.1 hp.2)]
          have ih' : yamlLoad ⟨(yamlDumpTrimmed (q :: t')).data⟩ = some (q :: t') :=
            ih (by
              simp only [fmWf, List.all_cons, Bool.and_eq_true] at hwf ⊢
              exact hwf.2) (by simp)
          rw [ih']
          show (if trimList (p.1 ++ ": " ++ dumpValue p.2).data = [] then
              some (q :: t')
            else match parseKVLine (p.1 ++ ": " ++ dumpValue p.2).data with
              | some kv => some (kv :: (q :: t'))
              | none => none) = some (p :: q :: t')
          rw [if_neg htrim]
          rw [parseKVLine_dump p.1 p.2 hp.1 hp.2]

/-- Loading the dump behind one blank line recovers the mapping (the exact
raw block `gray-matter` hands to the YAML loader). -/
theorem yamlLoad_dump_blank (fm : Frontmatter) (hwf : fmWf fm = true) :
    yamlLoad ⟨'\n' :: (yamlDumpTrimmed fm).data⟩ = some fm := by
  cases fm with
  | nil => rfl
  | cons p t =>
      have hstep := yamlLoad_step [] (yamlDumpTrimmed (p :: t)).data (by simp)
      rw [show ([] : List Char) ++ '\n' :: (yamlDumpTrimmed (p :: t)).data =
        '\n' :: (yamlDumpTrimmed (p :: t)).data from rfl] at hstep
      rw [hstep]
      have ih' : yamlLoad ⟨(yamlDumpTrimmed (p :: t)).data⟩ = some (p :: t) :=
        yamlLoad_dump (p :: t) hwf (by simp)
      rw [ih']
      rfl

/-- Reading off `selfOverlapFreeB`: no proper nonempty shift of the pattern
is a prefix of it. -/
theorem selfOverlapFree_spec {pat : List Char} (h : selfOverlapFreeB pat = true) :
    ∀ o, 0 < o → o < pat.length → (pat.drop o).isPrefixOf pat = false := by
  intro o ho hlt
  unfold selfOverlapFreeB at h
  rw [List.all_eq_true] at h
  have h2 := h o (List.mem_range.mpr hlt)
  simp only [Bool.or_eq_true, decide_eq_true_eq, Bool.not_eq_true'] at h2
  rcases h2 with h0 | h1
  · omega
  · exact h1

/-- A pattern cannot start where the heads differ. -/
theorem isPrefixOf_cons_false_of_head_ne {q x : Char} {Q X : List Char}
    (h : q ≠ x) : ((q :: Q).isPrefixOf (x :: X)) = false := by
  show (q == x && Q.isPrefixOf X) = false
  rw [beq_eq_false_iff_ne.mpr h]
  rfl

/-- A newline-headed pattern never occurs inside a newline-free list. -/
theorem nlpat_no_occ_in_nlfree {Q X : List Char} (hX : ∀ c ∈ X, c ≠ '\n') :
    ∀ j, (('\n' :: Q).isPrefixOf (X.drop j)) = false := by
  intro j
  cases hd : X.drop j with
  | nil => rfl
  | cons x t =>
      have hx : x ∈ X := List.drop_subset j X (by rw [hd]; simp)
      exact isPrefixOf_cons_false_of_head_ne (fun hcon => hX x hx hcon.symm)

/-- When the pattern has no nontrivial self-overlap and does not occur in
the prefix `A`, its first occurrence in `A ++ pat ++ tail` is at the
seam. -/
theorem firstIdx_seam (pat A tail : List Char) (hpat : pat ≠ [])
    (hso : selfOverlapFreeB pat = true)
    (hA : hasSubB A pat = false) :
    firstIdx pat (A ++ pat ++ tail) = some A.length := by
  rw [List.append_assoc]
  refine firstIdx_append_of_occ pat A (pat ++ tail) ?_ ?_
  · rw [List.isPrefixOf_iff_prefix]
    exact List.prefix_append pat tail
  · intro j hj
    by_contra hocc
    rw [Bool.not_eq_false] at hocc
    by_cases hfit : j + pat.length ≤ A.length
    · have hAj : pat.isPrefixOf (A.drop j) = true := by
        rw [List.drop_append_of_le_length (by omega)] at hocc
        exact isPrefixOf_append_left hocc (by rw [List.length_drop]; omega)
      rw [no_occ_of_hasSubB_false hA j] at hAj
      exact Bool.noConfusion hAj
    · have hlen : 0 < pat.length := List.length_pos.mpr hpat
      have ho1 : 0 < A.length - j := by omega
      have ho2 : A.length - j < pat.length := by omega
      rw [List.isPrefixOf_iff_prefix] at hocc
      obtain ⟨r, hr⟩ := hocc
      have h1 : (A ++ (pat ++ tail)).drop (j + (A.length - j)) = pat ++ tail := by
        rw [show j + (A.length - j) = A.length from by omega, List.drop_left]
      have h2 : (A ++ (pat ++ tail)).drop (j + (A.length - j)) =
          pat.drop (A.length - j) ++ r := by
        rw [← List.drop_drop, ← hr]
        rw [List.drop_append_of_le_length (le_of_lt ho2)]
      have h3 : (pat.drop (A.length - j)).isPrefixOf pat = true := by
        refine isPrefixOf_append_left (u := pat) (v := tail) ?_ ?_
        · rw [List.isPrefixOf_iff_prefix]
          exact ⟨r, by rw [← h2, h1]⟩
        · rw [List.length_drop]; omega
      rw [selfOverlapFree_spec hso (A.length - j) ho1 ho2] at h3
      exact Bool.noConfusion h3

/-- No `\n---` occurs anywhere in a blank line followed by joined lines
that are nonempty, newline-free and do not start with `-`. -/
theorem join_no_nl3 (lines : List String) :
    (∀ l ∈ lines, l.data ≠ [] ∧ (∀ c ∈ l.data, c ≠ '\n') ∧
      l.data.head? ≠ some '-') →
    lines ≠ [] →
    ∀ j, ((['\n', '-', '-', '-'] : List Char).isPrefixOf
      (('\n' :: (joinLines lines).data).drop j)) = false := by
  induction lines with
  | nil => intro _ hne; exact absurd rfl hne
  | cons l t ih =>
      intro hl _
      obtain ⟨hlne, hlnl, hlhd⟩ := hl l (by simp)
      obtain ⟨c0, ct, hc0⟩ : ∃ c0 ct, l.data = c0 :: ct := by
        cases hh : l.data with
        | nil => exact absurd hh hlne
        | cons x y => exact ⟨x, y, rfl⟩
      have hc0d : ('-' : Char) ≠ c0 := fun hcon => hlhd (by rw [hc0, ← hcon]; rfl)
      cases t with
      | nil =>
          intro j
          show ((['\n', '-', '-', '-'] : List Char).isPrefixOf
            (('\n' :: l.data).drop j)) = false
          cases j with
          | zero =>
              show (('\n' == '\n') && (['-', '-', '-'] : List Char).isPrefixOf l.data)
                = false
              rw [hc0, isPrefixOf_cons_false_of_head_ne hc0d]
              simp
          | succ j' =>
              show ((['\n', '-', '-', '-'] : List Char).isPrefixOf (l.data.drop j'))
                = false
              exact nlpat_no_occ_in_nlfree hlnl j'
      | cons m t' =>
          intro j
          have hJ : (joinLines (l :: m :: t')).data =
              l.data ++ '\n' :: (joinLines (m :: t')).data := by
            rw [show joinLines (l :: m :: t') = l ++ "\n" ++ joinLines (m :: t')
              from rfl]
            rw [String.data_append, String.data_append, List.append_assoc]
            rfl
          rw [hJ]
          cases j with
          | zero =>
              show (('\n' == '\n') && (['-', '-', '-'] : List Char).isPrefixOf
                (l.data ++ '\n' :: (joinLines (m :: t')).data)) = false
              rw [hc0, List.cons_append, isPrefixOf_cons_false_of_head_ne hc0d]
              simp
          | succ j' =>
              show ((['\n', '-', '-', '-'] : List Char).isPrefixOf
                ((l.data ++ '\n' :: (joinLines (m :: t')).data).drop j')) = false
              by_cases hj : j' < l.data.length
              · rw [List.drop_append_of_le_length (le_of_lt hj)]
                obtain ⟨x, xt, hx⟩ : ∃ x xt, l.data.drop j' = x :: xt := by
                  cases hh : l.data.drop j' with
                  | nil =>
                      exfalso
                      have hlen2 := congrArg List.length hh
                      rw [List.length_drop, List.length_nil] at hlen2
                      omega
                  | cons a b => exact ⟨a, b, rfl⟩
                rw [hx, List.cons_append]
                have hxmem : x ∈ l.data := List.drop_subset j' l.data (by rw [hx]; simp)
                exact isPrefixOf_cons_false_of_head_ne
                  (fun hcon => hlnl x hxmem hcon.symm)
              · have hsplit : (l.data ++ '\n' :: (joinLines (m :: t')).data).drop j' =
                    ('\n' :: (joinLines (m :: t')).data).drop (j' - l.data.length) := by
                  rw [show j' = l.data.length + (j' - l.data.length) from by omega]
                  rw [List.drop_append]
                  rw [show l.data.length + (j' - l.data.length) - l.data.length =
                    j' - l.data.length from by omega]
                rw [hsplit]
                exact ih (fun x hx => hl x (by simp [hx])) (by simp) _

/-- Character-level shape of `buildMarkdownContent` when the frontmatter is
nonempty, grouped for the `gray-matter` scan: the opening delimiter, the
matter block `'\n' :: YAML`, the closing `\n---`, and the remainder. -/
theorem build_data_decomp (data : MarkdownData) (cfg : CommentsConfig)
    (hne : data.frontmatter ≠ []) :
    (buildMarkdownContent data cfg).data =
      '-' :: '-' :: '-' ::
        ((('\n' :: (yamlDumpTrimmed data.frontmatter).data) ++ ['\n', '-', '-', '-']) ++
          ('\n' :: '\n' :: '-' :: '-' :: '-' :: '\n' :: '\n' ::
            (data.content.data ++ (commentsBlock cfg data.comments).data))) := by
  have hlen : data.frontmatter.length > 0 := List.length_pos.mpr hne
  simp only [buildMarkdownContent, frontmatterYamlOf]
  cases hcom : data.comments with
  | none =>
      show (((if data.frontmatter.length > 0 then
          "---\n" ++ (yamlDumpTrimmed data.frontmatter ++ "\n---\n\n") ++ "---\n\n"
        else "") ++ data.content)).data = _
      rw [if_pos hlen]
      rw [show commentsBlock cfg none = "" from rfl]
      simp [String.data_append, List.append_assoc]
  | some s =>
      show ((if s ≠ "" then
          (if data.frontmatter.length > 0 then
            "---\n" ++ (yamlDumpTrimmed data.frontmatter ++ "\n---\n\n") ++ "---\n\n"
          else "") ++ data.content ++ "\n\n" ++ cfg.anchorsStart ++ "\n" ++ s ++ "\n"
            ++ cfg.anchorsEnd
        else
          (if data.frontmatter.length > 0 then
            "---\n" ++ (yamlDumpTrimmed data.frontmatter ++ "\n---\n\n") ++ "---\n\n"
          else "") ++ data.content)).data = _
      rw [show commentsBlock cfg (some s) = if s ≠ "" then
        "\n\n" ++ cfg.anchorsStart ++ "\n" ++ s ++ "\n" ++ cfg.anchorsEnd
        else "" from rfl]
      by_cases hs : s = ""
      · rw [if_neg (show ¬ (s ≠ "") from fun hcon => hcon hs),
          if_neg (show ¬ (s ≠ "") from fun hcon => hcon hs), if_pos hlen]
        simp [String.data_append, List.append_assoc]
      · rw [if_pos (show s ≠ "" from hs), if_pos (show s ≠ "" from hs), if_pos hlen]
        simp [String.data_append, List.append_assoc]

/-- The dumped `key: value` lines are nonempty, newline-free and do not
start with `-`. -/
theorem dump_lines_wf (fm : Frontmatter) (hwf : fmWf fm = true) :
    ∀ l ∈ fm.map (fun p => p.1 ++ ": " ++ dumpValue p.2),
      l.data ≠ [] ∧ (∀ c ∈ l.data, c ≠ '\n') ∧ l.data.head? ≠ some '-' := by
  intro l hl
  simp only [List.mem_map] at hl
  obtain ⟨p, hp, rfl⟩ := hl
  have hpw : keyWfB p.1 = true ∧ valueWf p.2 = true := by
    simp only [fmWf, List.all_eq_true, Bool.and_eq_true] at hwf
    exact hwf p hp
  obtain ⟨hkne, _, _, _, _, hdash, _, _, _⟩ := keyWfB_spec hpw.1
  obtain ⟨c0, kt, hc0⟩ : ∃ c0 kt, p.1.data = c0 :: kt := by
    cases hh : p.1.data with
    | nil => exact absurd hh hkne
    | cons x y => exact ⟨x, y, rfl⟩
  refine ⟨?_, kvline_no_nl p.1 p.2 hpw.1 hpw.2, ?_⟩
  · rw [kvline_data, hc0]
    simp
  · rw [kvline_data, hc0, List.cons_append]
    intro hcon
    exact hdash (by rw [hc0]; exact hcon)

/-- The matter block `'\n' :: YAML` contains no occurrence of `\n---`. -/
theorem yaml_block_no_nl3 (fm : Frontmatter) (hwf : fmWf fm = true) (hne : fm ≠ []) :
    hasSubB ('\n' :: (yamlDumpTrimmed fm).data) ['\n', '-', '-', '-'] = false := by
  unfold hasSubB
  have hocc : ∀ j, ((['\n', '-', '-', '-'] : List Char).isPrefixOf
      (('\n' :: (yamlDumpTrimmed fm).data).drop j)) = false := by
    intro j
    have h := join_no_nl3 (fm.map (fun p => p.1 ++ ": " ++ dumpValue p.2))
      (dump_lines_wf fm hwf) (fun hcon => hne (List.map_eq_nil_iff.mp hcon)) j
    exact h
  rw [firstIdx_none_of_no_occ ['\n', '-', '-', '-']
    ('\n' :: (yamlDumpTrimmed fm).data) (by decide) hocc]
  rfl

/-- The matter block is not all blank/comment lines: `gray-matter` really
invokes the YAML loader on it. -/
theorem dump_not_all_comment (fm : Frontmatter) (hwf : fmWf fm = true) (hne : fm ≠ []) :
    (splitLinesList ('\n' :: (yamlDumpTrimmed fm).data)).all
      (fun l => trimList l = [] || (l.dropWhile isWsChar).head? = some '#') = false := by
  cases fm with
  | nil => exact absurd rfl hne
  | cons p t =>
      have hpw : keyWfB p.1 = true ∧ valueWf p.2 = true := by
        simp only [fmWf, List.all_eq_true, Bool.and_eq_true] at hwf
        exact hwf p (by simp)
      obtain ⟨hkne, _, _, _, _, _, hhash, _, hkws⟩ := keyWfB_spec hpw.1
      obtain ⟨c0, kt, hc0⟩ : ∃ c0 kt, p.1.data = c0 :: kt := by
        cases hh : p.1.data with
        | nil => exact absurd hh hkne
        | cons x y => exact ⟨x, y, rfl⟩
      have hws0 : isWsChar c0 = false := by rw [hc0] at hkws; exact hkws
      rw [show splitLinesList ('\n' :: (yamlDumpTrimmed (p :: t)).data) =
        [] :: splitLinesList (yamlDumpTrimmed (p :: t)).data from rfl]
      rw [splitLines_dump (p :: t) hwf (by simp)]
      rw [List.all_eq_false]
      refine ⟨(p.1 ++ ": " ++ dumpValue p.2).data, ?_, ?_⟩
      · rw [List.map_cons]
        exact List.mem_cons_of_mem _ (List.mem_cons_self _ _)
      · intro hcon
        simp only [Bool.or_eq_true, decide_eq_true_eq] at hcon
        rcases hcon with h | h
        · exact trimList_ne_nil_of_mem (c := c0)
            (by rw [kvline_data, hc0]; simp) hws0 h
        · rw [kvline_data, hc0, List.cons_append, List.dropWhile_cons] at h
          rw [hws0] at h
          simp only [Bool.false_eq_true, if_false] at h
          have : c0 = '#' := Option.some.inj h
          exact hhash (by rw [hc0, this]; rfl)

/-- `gray-matter` on an engine-built document: the frontmatter mapping is
recovered and the body is the remainder after the closing delimiter with
one newline stripped. -/
theorem matterSplit_build (data : MarkdownData) (cfg : CommentsConfig)
    (hwf : fmWf data.frontmatter = true) (hne : data.frontmatter ≠ []) :
    matterSplit (buildMarkdownContent data cfg) =
      some (data.frontmatter,
        "\n---\n\n" ++ data.content ++ commentsBlock cfg data.comments) := by
  simp only [matterSplit]
  rw [build_data_decomp data cfg hne]
  rw [if_neg (by exact fun hcon => hcon rfl)]
  rw [if_neg (by exact fun hcon => absurd (Option.some.inj hcon) (by decide))]
  rw [show List.drop 3
      ('-' :: '-' :: '-' ::
        ((('\n' :: (yamlDumpTrimmed data.frontmatter).data) ++ ['\n', '-', '-', '-']) ++
          '\n' :: '\n' :: '-' :: '-' :: '-' :: '\n' :: '\n' ::
            (data.content.data ++ (commentsBlock cfg data.comments).data))) =
    (('\n' :: (yamlDumpTrimmed data.frontmatter).data) ++ ['\n', '-', '-', '-']) ++
      '\n' :: '\n' :: '-' :: '-' :: '-' :: '\n' :: '\n' ::
        (data.content.data ++ (commentsBlock cfg data.comments).data) from rfl]
  rw [show List.takeWhile (fun c => decide (c ≠ '\n'))
      ((('\n' :: (yamlDumpTrimmed data.frontmatter).data) ++ ['\n', '-', '-', '-']) ++
        '\n' :: '\n' :: '-' :: '-' :: '-' :: '\n' :: '\n' ::
          (data.content.data ++ (commentsBlock cfg data.comments).data)) =
    ([] : List Char) from rfl]
  rw [if_neg (by exact fun hcon => hcon rfl)]
  rw [firstIdx_seam ['\n', '-', '-', '-']
    ('\n' :: (yamlDumpTrimmed data.frontmatter).data)
    ('\n' :: '\n' :: '-' :: '-' :: '-' :: '\n' :: '\n' ::
      (data.content.data ++ (commentsBlock cfg data.comments).data))
    (by decide) (by decide) (yaml_block_no_nl3 data.frontmatter hwf hne)]
  show Option.map
      (fun fm =>
        (fm,
          (⟨match
              (match
                List.drop (('\n' :: (yamlDumpTrimmed data.frontmatter).data).length + 4)
                  ((('\n' :: (yamlDumpTrimmed data.frontmatter).data) ++
                      ['\n', '-', '-', '-']) ++
                    '\n' :: '\n' :: '-' :: '-' :: '-' :: '\n' :: '\n' ::
                      (data.content.data ++ (commentsBlock cfg data.comments).data)) with
                | '\r' :: r => r
                | r => r) with
            | '\n' :: r => r
            | r => r⟩ : String)))
      (if
          ((splitLinesList
                (List.take ('\n' :: (yamlDumpTrimmed data.frontmatter).data).length
                  ((('\n' :: (yamlDumpTrimmed data.frontmatter).data) ++
                      ['\n', '-', '-', '-']) ++
                    '\n' :: '\n' :: '-' :: '-' :: '-' :: '\n' :: '\n' ::
                      (data.content.data ++
                        (commentsBlock cfg data.comments).data)))).all
            fun l => decide (trimList l = []) ||
              decide ((List.dropWhile isWsChar l).head? = some '#')) = true then
        some []
      else
        yamlLoad ⟨List.take ('\n' :: (yamlDumpTrimmed data.frontmatter).data).length
          ((('\n' :: (yamlDumpTrimmed data.frontmatter).data) ++ ['\n', '-', '-', '-']) ++
            '\n' :: '\n' :: '-' :: '-' :: '-' :: '\n' :: '\n' ::
              (data.content.data ++ (commentsBlock cfg data.comments).data))⟩) =
    some (data.frontmatter, "\n---\n\n" ++ data.content ++ commentsBlock cfg data.comments)
  rw [List.append_assoc]
  rw [List.take_left]
  rw [List.drop_append 4]
  rw [show (['\n', '-', '-', '-'] ++
      '\n' :: '\n' :: '-' :: '-' :: '-' :: '\n' :: '\n' ::
        (data.content.data ++ (commentsBlock cfg data.comments).data)).drop 4 =
    '\n' :: '\n' :: '-' :: '-' :: '-' :: '\n' :: '\n' ::
      (data.content.data ++ (commentsBlock cfg data.comments).data) from rfl]
  rw [dump_not_all_comment data.frontmatter hwf hne]
  rw [if_neg (by exact fun hcon => Bool.noConfusion hcon)]
  rw [yamlLoad_dump_blank data.frontmatter hwf]
  rfl

/-- An engine-built document with frontmatter is never blank. -/
theorem jsTrim_build_ne (data : MarkdownData) (cfg : CommentsConfig)
    (hne : data.frontmatter ≠ []) :
    jsTrim (buildMarkdownContent data cfg) ≠ "" := by
  intro hcon
  have hd : trimList (buildMarkdownContent data cfg).data = [] := by
    have := congrArg String.data hcon
    exact this
  have hmem : ('-' : Char) ∈ (buildMarkdownContent data cfg).data := by
    rw [build_data_decomp data cfg hne]
    simp
  have := all_ws_of_trimList_nil hd '-' hmem
  exact absurd this (by decide)

/-- `parseMarkdownContent` on an engine-built document with frontmatter:
the mapping is recovered and the comments scan runs on the decoded body. -/
theorem parseMarkdownContent_build (data : MarkdownData) (cfg : CommentsConfig)
    (hwf : fmWf data.frontmatter = true) (hne : data.frontmatter ≠ []) :
    parseMarkdownContent (buildMarkdownContent data cfg) =
      some ⟨data.frontmatter,
        removeCommentsSection
          ("\n---\n\n" ++ data.content ++ commentsBlock cfg data.comments),
        extractCommentsSection
          ("\n---\n\n" ++ data.content ++ commentsBlock cfg data.comments),
        buildMarkdownContent data cfg⟩ := by
  unfold parseMarkdownContent
  rw [if_neg (jsTrim_build_ne data cfg hne)]
  rw [matterSplit_build data cfg hwf hne]
  rfl

/-- A relation maps to a flow object with well-formed keys and scalar
values. -/
theorem relationFm_wf (r : Relation) :
    (relationFm r).all (fun p => keyWfB p.1 && scalarValue p.2) = true := by
  unfold relationFm
  cases r.delay <;> rfl

/-- An attachment maps to a flow object with well-formed keys and scalar
values. -/
theorem attachmentFm_wf (a : Attachment) :
    (attachmentFm a).all (fun p => keyWfB p.1 && scalarValue p.2) = true := by
  unfold attachmentFm
  cases a.content_url <;> rfl

/-- Every frontmatter mapping the engine emits is well-formed: the keys are
fixed identifiers and the values scalars or flat object arrays. -/
theorem fmWf_mapIssue (issue : Issue) : fmWf (mapIssueToFrontmatter issue) = true := by
  unfold fmWf mapIssueToFrontmatter
  simp only [List.all_append, Bool.and_eq_true]
  refine ⟨⟨⟨⟨?_, ?_⟩, ?_⟩, ?_⟩, ?_⟩
  · rfl
  · cases issue.assignedToName <;> rfl
  · cases issue.relations with
    | none => rfl
    | some rs =>
        show ((if rs.length > 0 then
          [("relations", FmValue.arr (List.map relationFm rs))] else []).all
            fun p => keyWfB p.1 && valueWf p.2) = true
        by_cases h : rs.length > 0
        · rw [if_pos h]
          simp only [List.all_cons, List.all_nil, Bool.and_true]
          rw [show keyWfB "relations" = true from rfl, Bool.true_and]
          simp only [valueWf, List.all_eq_true]
          intro o ho
          simp only [List.mem_map] at ho
          obtain ⟨r, _, rfl⟩ := ho
          exact List.all_eq_true.mp (relationFm_wf r)
        · rw [if_neg h]; rfl
  · cases issue.attachments with
    | none => rfl
    | some as_ =>
        show ((if as_.length > 0 then
          [("attachments", FmValue.arr (List.map attachmentFm as_))] else []).all
            fun p => keyWfB p.1 && valueWf p.2) = true
        by_cases h : as_.length > 0
        · rw [if_pos h]
          simp only [List.all_cons, List.all_nil, Bool.and_true]
          rw [show keyWfB "attachments" = true from rfl, Bool.true_and]
          simp only [valueWf, List.all_eq_true]
          intro o ho
          simp only [List.mem_map] at ho
          obtain ⟨a, _, rfl⟩ := ho
          exact List.all_eq_true.mp (attachmentFm_wf a)
        · rw [if_neg h]; rfl
  · cases issue.journals with
    | none => rfl
    | some js =>
        show ((match lastJournal js with
          | some j => [("lastJournalId", FmValue.num j.id)]
          | none => []).all fun p => keyWfB p.1 && valueWf p.2) = true
        cases lastJournal js with
        | none => rfl
        | some j => rfl

/-- The engine's frontmatter mapping always has keys. -/
theorem mapIssue_ne_nil (issue : Issue) : mapIssueToFrontmatter issue ≠ [] := by
  unfold mapIssueToFrontmatter
  simp

/-- A date string is never strictly later than itself. -/
theorem jsDateGtStr_self (s : String) : jsDateGtStr s s = false := by
  unfold jsDateGtStr
  cases h : parseIsoParts s with
  | none => rfl
  | some p => simp

/-- When the issue has no journal entries, the engine records no
`lastJournalId`. -/
theorem fmLookup_mapIssue_lastJournalId_none (issue : Issue)
    (hj : issue.journals = none ∨ issue.journals = some []) :
    fmLookup (mapIssueToFrontmatter issue) "lastJournalId" = none := by
  unfold mapIssueToFrontmatter
  have hlast : (match issue.journals with
      | some js =>
          match lastJournal js with
          | some j => [("lastJournalId", FmValue.num j.id)]
          | none => []
      | none => []) = ([] : Frontmatter) := by
    rcases hj with h | h <;> rw [h] <;> rfl
  rw [hlast]
  rw [List.append_assoc, List.append_assoc, List.append_assoc]
  rw [fmLookup_append_right]
  · rw [fmLookup_append_right]
    · rw [fmLookup_append_right]
      · rw [fmLookup_append_right]
        · rfl
        · cases issue.attachments with
          | none => simp
          | some as_ => by_cases h : as_.length > 0 <;> simp [h]
      · cases issue.relations with
        | none => simp
        | some rs => by_cases h : rs.length > 0 <;> simp [h]
    · cases issue.assignedToName with
      | none => simp
      | some n => simp
  · intro x hx
    simp only [List.mem_cons, List.not_mem_nil, or_false] at hx
    rcases hx with h | h | h | h | h | h | h | h | h <;> simp [h]

/-- The identity of the freshly written frontmatter. -/
theorem extractIssueId_mapIssue (issue : Issue) :
    extractIssueIdFromFrontmatter (mapIssueToFrontmatter issue) = some issue.id := rfl

/-- Against its own snapshot, `shouldUpdateIssue` reports no change (the
recorded `updated_on` is the remote one, and a date is not later than
itself). -/
theorem shouldUpdateIssue_mapIssue (issue : Issue) (hup : issue.updated_on ≠ "") :
    shouldUpdateIssue issue (mapIssueToFrontmatter issue) = false := by
  unfold shouldUpdateIssue
  rw [fmLookup_mapIssue_updated_on]
  show (if ¬ fmTruthy (FmValue.str issue.updated_on) = true then true
    else jsDateGtFm issue.updated_on (FmValue.str issue.updated_on)) = false
  rw [if_neg (not_not_intro (by simp [fmTruthy, hup]))]
  show jsDateGtStr issue.updated_on issue.updated_on = false
  exact jsDateGtStr_self issue.updated_on

/-- Against its own snapshot, `shouldUpdateComments` reports no change:
the recorded marker is the maximum remote id (nonzero by hypothesis), and
no remote id exceeds it. -/
theorem shouldUpdateComments_mapIssue (issue : Issue)
    (hids : ∀ j ∈ issue.journals.getD [], j.id ≠ 0) :
    shouldUpdateComments (issue.journals.getD []) (mapIssueToFrontmatter issue)
      = false := by
  unfold shouldUpdateComments
  cases hj : issue.journals with
  | none =>
      rw [fmLookup_mapIssue_lastJournalId_none issue (Or.inl hj)]
      rfl
  | some js =>
      cases js with
      | nil =>
          rw [fmLookup_mapIssue_lastJournalId_none issue (Or.inr hj)]
          rfl
      | cons j0 js' =>
          obtain ⟨jm, hlm, hmem, hbound⟩ := lastJournal_spec (j0 :: js') (by simp)
          rw [fmLookup_mapIssue_lastJournalId issue (j0 :: js') jm hj hlm]
          have hmne : jm.id ≠ 0 := by
            have := hids jm (by rw [hj]; exact hmem)
            exact this
          show (if ¬ fmTruthy (FmValue.num jm.id) = true then
              decide (((some (j0 :: js')).getD []).length > 0)
            else ((some (j0 :: js')).getD []).any
              fun j => jsNumGtFm j.id (FmValue.num jm.id)) = false
          rw [if_neg (not_not_intro (by simp [fmTruthy, hmne]))]
          rw [List.any_eq_false.mpr]
          intro x hx hcon
          have hle := hbound x hx
          have : jm.id < x.id := by
            have h := of_decide_eq_true hcon
            exact h
          omega

/-- The skip branch of the engine: no identity conflict and neither change
signal fires. -/
theorem syncIssueCore_skip (issueIdArg : Int) (issue : Issue) (f : ParsedMarkdown)
    (dryRun : Bool) (cfg : SyncConfig)
    (hconf : (idTruthy (extractIssueIdFromFrontmatter f.frontmatter) &&
      decide (extractIssueIdFromFrontmatter f.frontmatter ≠ some issue.id)) = false)
    (hu : shouldUpdateIssue issue f.frontmatter = false)
    (hc : shouldUpdateComments (issue.journals.getD []) f.frontmatter = false) :
    syncIssueCore issueIdArg issue f dryRun cfg =
      .ok (⟨true, issue.id, generateFilename issue.id issue.subject cfg.filename,
        .skipped, "Issue " ++ toString issueIdArg ++ " is already up to date", none⟩,
        none) := by
  unfold syncIssueCore
  have hconf' : ¬ ((idTruthy (extractIssueIdFromFrontmatter f.frontmatter) &&
      decide (extractIssueIdFromFrontmatter f.frontmatter ≠ some issue.id)) = true) := by
    rw [hconf]
    exact fun hcon => Bool.noConfusion hcon
  rw [if_neg hconf']
  rw [if_pos (show (!shouldUpdateIssue issue f.frontmatter &&
      !shouldUpdateComments (issue.journals.getD []) f.frontmatter) = true from by
    rw [hu, hc]; rfl)]

/-- Any write the engine performs (non-dry) carries the mapped frontmatter
of the fetched issue. -/
theorem write_shape {i : Int} {issue : Issue} {f : ParsedMarkdown}
    {cfg : SyncConfig} {r : SyncIssueResult} {w : MarkdownData}
    (h : syncIssueCore i issue f false cfg = .ok (r, some w)) :
    w.frontmatter = mapIssueToFrontmatter issue := by
  unfold syncIssueCore at h
  by_cases h1 : (idTruthy (extractIssueIdFromFrontmatter f.frontmatter) &&
      decide (extractIssueIdFromFrontmatter f.frontmatter ≠ some issue.id)) = true
  · rw [if_pos h1] at h
    exact Option.noConfusion (congrArg Prod.snd (Except.ok.inj h))
  · rw [if_neg h1] at h
    by_cases h2 : (!shouldUpdateIssue issue f.frontmatter &&
        !shouldUpdateComments (issue.journals.getD []) f.frontmatter) = true
    · rw [if_pos h2] at h
      exact Option.noConfusion (congrArg Prod.snd (Except.ok.inj h))
    · rw [if_neg h2] at h
      cases hres : resolveComments issue f (extractLastJournalId f.frontmatter)
          (shouldUpdateComments (issue.journals.getD []) f.frontmatter)
          cfg.comments with
      | error e =>
          simp only [bind, Except.bind, hres] at h
          exact Except.noConfusion h
      | ok c =>
          simp only [bind, Except.bind, hres] at h
          rw [if_neg (by exact fun hcon => Bool.noConfusion hcon)] at h
          have hsnd := congrArg Prod.snd (Except.ok.inj h)
          have hw := Option.some.inj hsnd
          rw [← hw]

/-- C3: (1) whenever the local file records a truthy `updated_on` that the
remote one is not strictly later than, and a truthy `lastJournalId` that no
remote comment entry exceeds, and the identity guard does not fire,
`syncIssue` returns action `skipped` with the "already up to date" message
and performs no write; (2) consequently, a second sync of the same
unchanged issue against the file just written is skipped with no write, so
the file stays byte-identical. -/
theorem C3_skip_idempotent :
    (∀ (issueIdArg : Int) (issue : Issue) (f : ParsedMarkdown) (dryRun : Bool)
       (cfg : SyncConfig) (uv lv : FmValue),
       fmLookup f.frontmatter "updated_on" = some uv → fmTruthy uv = true →
       jsDateGtFm issue.updated_on uv = false →
       fmLookup f.frontmatter "lastJournalId" = some lv → fmTruthy lv = true →
       (∀ j ∈ issue.journals.getD [], jsNumGtFm j.id lv = false) →
       (idTruthy (extractIssueIdFromFrontmatter f.frontmatter) &&
         decide (extractIssueIdFromFrontmatter f.frontmatter ≠ some issue.id))
         = false →
       syncIssueCore issueIdArg issue f dryRun cfg =
         .ok (⟨true, issue.id, generateFilename issue.id issue.subject cfg.filename,
           .skipped, "Issue " ++ toString issueIdArg ++ " is already up to date",
           none⟩, none)) ∧
    (∀ (issueIdArg : Int) (issue : Issue) (f0 : ParsedMarkdown) (cfg : SyncConfig)
       (r1 : SyncIssueResult) (w : MarkdownData),
       issue.id ≠ 0 → issue.updated_on ≠ "" →
       (∀ j ∈ issue.journals.getD [], j.id ≠ 0) →
       syncIssueCore issueIdArg issue f0 false cfg = .ok (r1, some w) →
       ∃ p, parseMarkdownContent (buildMarkdownContent w cfg.comments) = some p ∧
         syncIssueCore issueIdArg issue p false cfg =
           .ok (⟨true, issue.id,
             generateFilename issue.id issue.subject cfg.filename, .skipped,
             "Issue " ++ toString issueIdArg ++ " is already up to date", none⟩,
             none)) := by
  constructor
  · intro issueIdArg issue f dryRun cfg uv lv h1 h2 h3 h4 h5 h6 h7
    refine syncIssueCore_skip issueIdArg issue f dryRun cfg h7 ?_ ?_
    · unfold shouldUpdateIssue
      rw [h1]
      show (if ¬ fmTruthy uv = true then true
        else jsDateGtFm issue.updated_on uv) = false
      rw [if_neg (not_not_intro h2)]
      exact h3
    · unfold shouldUpdateComments
      rw [h4]
      show (if ¬ fmTruthy lv = true then
          decide ((issue.journals.getD []).length > 0)
        else (issue.journals.getD []).any fun j => jsNumGtFm j.id lv) = false
      rw [if_neg (not_not_intro h5)]
      rw [List.any_eq_false]
      intro x hx hcon
      rw [h6 x hx] at hcon
      exact Bool.noConfusion hcon
  · intro issueIdArg issue f0 cfg r1 w hid hup hids hrun
    have hwfm : w.frontmatter = mapIssueToFrontmatter issue := write_shape hrun
    have hwf : fmWf w.frontmatter = true := by
      rw [hwfm]; exact fmWf_mapIssue issue
    have hne : w.frontmatter ≠ [] := by
      rw [hwfm]; exact mapIssue_ne_nil issue
    refine ⟨_, parseMarkdownContent_build w cfg.comments hwf hne, ?_⟩
    refine syncIssueCore_skip issueIdArg issue _ false cfg ?_ ?_ ?_
    · show (idTruthy (extractIssueIdFromFrontmatter w.frontmatter) &&
        decide (extractIssueIdFromFrontmatter w.frontmatter ≠ some issue.id))
        = false
      rw [hwfm, extractIssueId_mapIssue]
      rw [show decide (some issue.id ≠ some issue.id) = false from
        decide_eq_false (fun hcon => hcon rfl)]
      exact Bool.and_false _
    · show shouldUpdateIssue issue w.frontmatter = false
      rw [hwfm]
      exact shouldUpdateIssue_mapIssue issue hup
    · show shouldUpdateComments (issue.journals.getD []) w.frontmatter = false
      rw [hwfm]
      exact shouldUpdateComments_mapIssue issue hids

/-- Witness for C3: the already-synced local file for issue 42 is skipped
untouched, and after a first sync writes `exWrite`, a second sync of the
unchanged `exIssue` against the parsed write is skipped with no write. -/
theorem C3_skip_idempotent_witness :
    (syncIssueCore 42 exIssue exFileSynced false defaultSyncConfig =
      .ok (⟨true, 42, generateFilename 42 exIssue.subject defaultSyncConfig.filename,
        .skipped, "Issue " ++ toString (42 : Int) ++ " is already up to date",
        none⟩, none)) ∧
    (∃ p, parseMarkdownContent (buildMarkdownContent exWrite
        defaultSyncConfig.comments) = some p ∧
      syncIssueCore 42 exIssue p false defaultSyncConfig =
        .ok (⟨true, 42,
          generateFilename 42 exIssue.subject defaultSyncConfig.filename, .skipped,
          "Issue " ++ toString (42 : Int) ++ " is already up to date", none⟩,
          none)) :=
  ⟨C3_skip_idempotent.1 42 exIssue exFileSynced false defaultSyncConfig
      (.str "2023-01-02T10:00:00Z") (.num 10) rfl (by decide) (by decide) rfl
      (by decide) (fun j hj => absurd hj (List.not_mem_nil j)) (by decide),
   C3_skip_idempotent.2 42 exIssue emptyParsedDoc defaultSyncConfig
      ⟨true, 42, generateFilename 42 exIssue.subject defaultSyncConfig.filename,
        .created, "Successfully created issue 42", some ⟨true, false, true⟩⟩
      exWrite (by decide) (by decide)
      (fun j hj => absurd hj (List.not_mem_nil j)) rfl⟩

/-- Scanning the decoded body of a built document with nonempty comments:
the comments come back trimmed, and the comments-free content keeps the
trailing blank line that `buildMarkdownContent` inserted before the block. -/
theorem comments_roundtrip (content s : String) (hs : s ≠ "")
    (hstrim : jsTrim s = s)
    (hstart : hasSubB ("\n---\n\n" ++ content ++ "\n\n").data
      commentsStartAnchor.data = false)
    (hend : hasSubB ("\n---\n\n" ++ content ++ "\n\n" ++ commentsStartAnchor ++
      "\n" ++ s ++ "\n").data commentsEndAnchor.data = false) :
    extractCommentsSection
        ("\n---\n\n" ++ content ++ commentsBlock defaultCommentsConfig (some s)) =
      some s ∧
    removeCommentsSection
        ("\n---\n\n" ++ content ++ commentsBlock defaultCommentsConfig (some s)) =
      "\n---\n\n" ++ content ++ "\n\n" := by
  have hBd : ("\n---\n\n" ++ content ++
      commentsBlock defaultCommentsConfig (some s)).data =
      (("\n---\n\n" ++ content ++ "\n\n").data ++ commentsStartAnchor.data) ++
        ('\n' :: (s.data ++ '\n' :: commentsEndAnchor.data)) := by
    rw [show commentsBlock defaultCommentsConfig (some s) =
      if s ≠ "" then "\n\n" ++ defaultCommentsConfig.anchorsStart ++ "\n" ++ s ++
        "\n" ++ defaultCommentsConfig.anchorsEnd else "" from rfl]
    rw [if_pos (show s ≠ "" from hs)]
    simp [String.data_append, List.append_assoc, defaultCommentsConfig,
      commentsStartAnchor, commentsEndAnchor]
  have hBd2 : ("\n---\n\n" ++ content ++
      commentsBlock defaultCommentsConfig (some s)).data =
      ((("\n---\n\n" ++ content ++ "\n\n" ++ commentsStartAnchor ++ "\n" ++ s ++
        "\n").data ++ commentsEndAnchor.data) ++ []) := by
    rw [hBd, List.append_nil]
    simp [String.data_append, List.append_assoc]
  have hfs : jsIndexOf
      ("\n---\n\n" ++ content ++ commentsBlock defaultCommentsConfig (some s))
      commentsStartAnchor =
      some ("\n---\n\n" ++ content ++ "\n\n").data.length := by
    unfold jsIndexOf
    rw [hBd]
    exact firstIdx_seam commentsStartAnchor.data
      ("\n---\n\n" ++ content ++ "\n\n").data
      ('\n' :: (s.data ++ '\n' :: commentsEndAnchor.data))
      (by decide) (by decide) hstart
  have hfe : jsIndexOf
      ("\n---\n\n" ++ content ++ commentsBlock defaultCommentsConfig (some s))
      commentsEndAnchor =
      some ("\n---\n\n" ++ content ++ "\n\n" ++ commentsStartAnchor ++ "\n" ++ s ++
        "\n").data.length := by
    unfold jsIndexOf
    rw [hBd2]
    exact firstIdx_seam commentsEndAnchor.data
      ("\n---\n\n" ++ content ++ "\n\n" ++ commentsStartAnchor ++ "\n" ++ s ++
        "\n").data [] (by decide) (by decide) hend
  have hlenP' : ("\n---\n\n" ++ content ++ "\n\n" ++ commentsStartAnchor ++ "\n" ++
      s ++ "\n").data.length =
      ("\n---\n\n" ++ content ++ "\n\n").data.length +
        commentsStartAnchor.data.length + s.data.length + 2 := by
    simp [String.data_append, List.length_append, commentsStartAnchor]
    omega
  constructor
  · unfold extractCommentsSection
    rw [hfs, hfe]
    show (if ("\n---\n\n" ++ content ++ "\n\n").data.length +
          commentsStartAnchor.data.length ≥
          ("\n---\n\n" ++ content ++ "\n\n" ++ commentsStartAnchor ++ "\n" ++ s ++
            "\n").data.length then none
      else some (jsTrim (jsSubstring
        ("\n---\n\n" ++ content ++ commentsBlock defaultCommentsConfig (some s))
        (("\n---\n\n" ++ content ++ "\n\n").data.length +
          commentsStartAnchor.data.length)
        ("\n---\n\n" ++ content ++ "\n\n" ++ commentsStartAnchor ++ "\n" ++ s ++
          "\n").data.length))) = some s
    rw [if_neg (by omega)]
    unfold jsSubstring
    rw [hBd]
    rw [show ("\n---\n\n" ++ content ++ "\n\n").data.length +
      commentsStartAnchor.data.length =
      (("\n---\n\n" ++ content ++ "\n\n").data ++ commentsStartAnchor.data).length
      from (List.length_append _ _).symm]
    rw [List.drop_left]
    rw [show ("\n---\n\n" ++ content ++ "\n\n" ++ commentsStartAnchor ++ "\n" ++ s
        ++ "\n").data.length -
        (("\n---\n\n" ++ content ++ "\n\n").data ++ commentsStartAnchor.data).length
        = s.data.length + 2 from by
      rw [List.length_append]
      omega]
    rw [show ('\n' :: (s.data ++ '\n' :: commentsEndAnchor.data)).take
        (s.data.length + 2) = '\n' :: (s.data ++ ['\n']) from by
      rw [show s.data.length + 2 = s.data.length + 1 + 1 from rfl]
      rw [List.take_succ_cons]
      rw [List.take_append 1]
      rfl]
    rw [show jsTrim ⟨'\n' :: (s.data ++ ['\n'])⟩ = ⟨trimList ('\n' :: (s.data ++
      ['\n']))⟩ from rfl]
    rw [show '\n' :: (s.data ++ ['\n']) = (['\n'] ++ s.data) ++ ['\n'] from by simp]
    rw [trimList_sandwich ['\n'] s.data ['\n'] (by decide) (by decide)
      (congrArg String.data hstrim)]
  · have h1 : jsSubstring
        ("\n---\n\n" ++ content ++ commentsBlock defaultCommentsConfig (some s)) 0
        ("\n---\n\n" ++ content ++ "\n\n").data.length =
        "\n---\n\n" ++ content ++ "\n\n" := by
      unfold jsSubstring
      rw [hBd, List.append_assoc]
      rw [show (("\n---\n\n" ++ content ++ "\n\n").data ++
        (commentsStartAnchor.data ++
          '\n' :: (s.data ++ '\n' :: commentsEndAnchor.data))).drop 0 =
        ("\n---\n\n" ++ content ++ "\n\n").data ++ (commentsStartAnchor.data ++
          '\n' :: (s.data ++ '\n' :: commentsEndAnchor.data)) from rfl]
      rw [show ("\n---\n\n" ++ content ++ "\n\n").data.length - 0 =
        ("\n---\n\n" ++ content ++ "\n\n").data.length from rfl]
      rw [List.take_left]
    have h2 : jsSubstringFrom
        ("\n---\n\n" ++ content ++ commentsBlock defaultCommentsConfig (some s))
        (("\n---\n\n" ++ content ++ "\n\n" ++ commentsStartAnchor ++ "\n" ++ s ++
          "\n").data.length + commentsEndAnchor.data.length) = "" := by
      unfold jsSubstringFrom
      rw [hBd2, List.append_nil]
      rw [show ("\n---\n\n" ++ content ++ "\n\n" ++ commentsStartAnchor ++ "\n" ++ s
        ++ "\n").data.length + commentsEndAnchor.data.length =
        (("\n---\n\n" ++ content ++ "\n\n" ++ commentsStartAnchor ++ "\n" ++ s ++
          "\n").data ++ commentsEndAnchor.data).length
        from (List.length_append _ _).symm]
      rw [List.drop_length]
    unfold removeCommentsSection
    rw [hfs, hfe]
    show jsSubstring
        ("\n---\n\n" ++ content ++ commentsBlock defaultCommentsConfig (some s)) 0
        ("\n---\n\n" ++ content ++ "\n\n").data.length ++
      jsTrim (jsSubstringFrom
        ("\n---\n\n" ++ content ++ commentsBlock defaultCommentsConfig (some s))
        (("\n---\n\n" ++ content ++ "\n\n" ++ commentsStartAnchor ++ "\n" ++ s ++
          "\n").data.length + commentsEndAnchor.data.length)) =
      "\n---\n\n" ++ content ++ "\n\n"
    rw [h1, h2]
    rw [show jsTrim "" = "" from rfl]
    show String.mk (("\n---\n\n" ++ content ++ "\n\n").data ++ []) =
      "\n---\n\n" ++ content ++ "\n\n"
    rw [List.append_nil]

/-- C1: counterexample.  The engine's own first-sync write for `exIssue`
(pinned by running the decision engine) does not round-trip: parsing the
serialized document yields a `content` that differs from the written one
(it gains the `\n---\n\n` prefix left over from the doubled close
delimiter). -/
theorem C1_counterexample :
    (syncIssueCore 42 exIssue emptyParsedDoc false defaultSyncConfig).toOption.map
        (fun r => r.2) = some (some exWrite) ∧
    (parseMarkdownContent
        (buildMarkdownContent exWrite defaultSyncConfig.comments)).map
        ParsedMarkdown.content ≠ some exWrite.content := by
  constructor
  · rfl
  · rw [parseMarkdownContent_build exWrite defaultSyncConfig.comments
      (fmWf_mapIssue exIssue) (mapIssue_ne_nil exIssue)]
    decide

/-- C1 (amended): for an engine-shaped document — well-formed nonempty
frontmatter, trimmed nonempty comments, no anchor occurrence ahead of the
block — parsing the serialized bytes recovers the frontmatter mapping and
the comments value exactly, but the content comes back as
`"\n---\n\n" ++ content ++ "\n\n"` rather than `content`: the round-trip
law holds for frontmatter and comments and fails for content. -/
theorem C1_amended (fm : Frontmatter) (content s : String)
    (hwf : fmWf fm = true) (hne : fm ≠ []) (hs : s ≠ "") (hstrim : jsTrim s = s)
    (hstart : hasSubB ("\n---\n\n" ++ content ++ "\n\n").data
      commentsStartAnchor.data = false)
    (hend : hasSubB ("\n---\n\n" ++ content ++ "\n\n" ++ commentsStartAnchor ++
      "\n" ++ s ++ "\n").data commentsEndAnchor.data = false) :
    parseMarkdownContent
        (buildMarkdownContent ⟨fm, content, some s⟩ defaultCommentsConfig) =
      some ⟨fm, "\n---\n\n" ++ content ++ "\n\n", some s,
        buildMarkdownContent ⟨fm, content, some s⟩ defaultCommentsConfig⟩ := by
  rw [parseMarkdownContent_build ⟨fm, content, some s⟩ defaultCommentsConfig hwf hne]
  obtain ⟨he, hr⟩ := comments_roundtrip content s hs hstrim hstart hend
  show some (⟨fm, removeCommentsSection ("\n---\n\n" ++ content ++
      commentsBlock defaultCommentsConfig (some s)),
    extractCommentsSection ("\n---\n\n" ++ content ++
      commentsBlock defaultCommentsConfig (some s)),
    buildMarkdownContent ⟨fm, content, some s⟩ defaultCommentsConfig⟩ :
      ParsedMarkdown) = _
  rw [hr, he]

/-- Witness for the amended C1 at a concrete engine-shaped document. -/
theorem C1_amended_witness :
    fmWf [("id", FmValue.num 1)] = true ∧
    parseMarkdownContent (buildMarkdownContent
        ⟨[("id", FmValue.num 1)], "Hello", some "## C\n\nhi\n\n---"⟩
        defaultCommentsConfig) =
      some ⟨[("id", FmValue.num 1)], "\n---\n\nHello\n\n",
        some "## C\n\nhi\n\n---",
        buildMarkdownContent ⟨[("id", FmValue.num 1)], "Hello",
          some "## C\n\nhi\n\n---"⟩ defaultCommentsConfig⟩ :=
  ⟨by decide, C1_amended [("id", FmValue.num 1)] "Hello" "## C\n\nhi\n\n---"
    (by decide) (List.cons_ne_nil _ _) (by decide) (by decide) (by decide)
    (by decide)⟩

end Redmine
